import Mathlib

/-!
# proemergotech/retry : exponential backoff and the retrying round tripper

A shallow embedding of `backoff/exponential_backoff.go` and
`gentlemanretry/gentleman_retry.go`.

Conventions of the embedding

* `time.Duration` is an `int64` count of nanoseconds, held in an `Int`; a `time.Time` instant
  is a nanosecond reading of the clock (`Int`).  `time.Now()` is an explicit argument.
* A finite `float64` is the rational number it denotes.  Every float operation of the source
  (the conversion `float64(d)`, `*`, `/`, `+`) is the exact operation followed by `round64`,
  the rounding to the nearest binary64 value, ties to even; operations are rounded one by
  one, as on amd64.  The conversion `time.Duration(x)` truncates toward zero and yields
  `math.MinInt64` when the result does not fit `int64` (the amd64 result; Go leaves it to
  the implementation).
* `rand.Float64()` is an explicit argument (the draw).
* The mutable receiver `*ExponentialBackoff` becomes state passing: `NextBackOff` returns
  the new state together with the Go results.
* The `for` loop of `retry` runs on fuel, one unit per iteration.  What the loop cannot
  know in advance is supplied from outside: the result of each call of the underlying
  round tripper, the clock readings, the random draws, and which case each `select` takes.
* A run records its observable actions (transport calls, evaluator calls, `NextBackOff`
  calls, body reads and closes, waits) in a trace, in program order.
-/

namespace Retry

/-- A `time.Duration`: an `int64` count of nanoseconds. -/
abbrev Duration := Int

/-- A `time.Time` instant: nanoseconds read from the clock. -/
abbrev Instant := Int

/-- The constant `time.Millisecond`. -/
def Millisecond : Duration := 1000000

/-- The constant `time.Second`. -/
def Second : Duration := 1000 * Millisecond

/-- The constant `time.Minute`. -/
def Minute : Duration := 60 * Second

/-- The constant `math.MinInt64`. -/
def MinInt64 : Int := -9223372036854775808

/-- The constant `math.MaxInt64`. -/
def MaxInt64 : Int := 9223372036854775807

/-! ### binary64 arithmetic

A finite `float64` is the rational number it denotes.  A float operation is the exact
rational operation followed by `round64`, the rounding to the nearest binary64 value with
ties to even (53-bit significand, subnormals below `2^-1022`). -/

/-- The number of halvings that bring `n` below 2, found in at most `fuel` steps. -/
def log2Fuel : Nat → Nat → Nat
  | 0, _ => 0
  | fuel + 1, n => if n < 2 then 0 else log2Fuel fuel (n / 2) + 1

/-- The floor of the binary logarithm of a positive natural number. -/
def natLog2 (n : Nat) : Nat :=
  log2Fuel n n

/-- The power `2 ^ e` for an integer exponent. -/
def pow2 (e : Int) : ℚ :=
  if 0 ≤ e then ((2 ^ e.toNat : Nat) : ℚ) else 1 / ((2 ^ (-e).toNat : Nat) : ℚ)

/-- The floor of the binary logarithm of `|x|`, for `x ≠ 0`. -/
def ilog2 (x : ℚ) : Int :=
  let d : Int := (natLog2 x.num.natAbs : Int) - (natLog2 x.den : Int)
  if pow2 d ≤ |x| then d else d - 1

/-- Rounding to the nearest integer, a tie going to the even neighbour. -/
def roundHalfEven (y : ℚ) : Int :=
  let n := ⌊y⌋
  if y - n < 1 / 2 then n
  else if 1 / 2 < y - n then n + 1
  else if n % 2 = 0 then n else n + 1

/-- The spacing of binary64 values around `x ≠ 0`: `2 ^ (e - 52)` for `2 ^ e ≤ |x| < 2 ^ (e + 1)`,
and `2 ^ -1074` in the subnormal range. -/
def quantum (x : ℚ) : ℚ :=
  pow2 (max (ilog2 x) (-1022) - 52)

/-- Rounding of a rational number to binary64, to nearest, ties to even.  (A result of
magnitude `2^1024` or more is an infinity in Go; the program below can produce one only as
the argument of a conversion to `time.Duration`, where it is out of range either way.) -/
def round64 (x : ℚ) : ℚ :=
  if x = 0 then 0 else (roundHalfEven (x / quantum x) : ℚ) * quantum x

/-- The integer part of `x`, the fraction discarded (rounding toward zero). -/
def truncate (x : ℚ) : Int :=
  if 0 ≤ x then ⌊x⌋ else ⌈x⌉

/-- The conversion `time.Duration(x)` of a `float64`: the fraction is discarded.  When the
integer part does not fit `int64` Go leaves the result to the implementation; this is the
result on amd64, `math.MinInt64`. -/
def toDuration (x : ℚ) : Duration :=
  if MinInt64 ≤ truncate x ∧ truncate x ≤ MaxInt64 then truncate x else MinInt64
namespace backoff

/-- The constant `DefaultMaxElapsedTime = 1 * time.Minute`. -/
def DefaultMaxElapsedTime : Duration := 1 * Minute

/-- The constant `DefaultMaxInterval = 5 * time.Second`. -/
def DefaultMaxInterval : Duration := 5 * Second

/-- The constant `DefaultRandomizationFactor = 0.5`. -/
def DefaultRandomizationFactor : ℚ := 1 / 2

/-- The constant `initialInterval = 50 * time.Millisecond`. -/
def initialInterval : Duration := 50 * Millisecond

/-- The constant `multiplier = 1.5`. -/
def multiplier : ℚ := 3 / 2

/-- The struct `ExponentialBackoff`. -/
structure ExponentialBackoff where
  currentInterval : Duration
  maxElapsedTime : Duration
  maxInterval : Duration
  randomizationFactor : ℚ
  startTime : Instant
  deriving DecidableEq

/-- The constructor `NewExponentialBackOff`; `now` is the value of `time.Now()`. -/
def NewExponentialBackOff (now : Instant) (maxElapsedTime maxInterval : Duration)
    (randomizationFactor : ℚ) : ExponentialBackoff :=
  { currentInterval := initialInterval
    maxElapsedTime := maxElapsedTime
    maxInterval := maxInterval
    randomizationFactor := randomizationFactor
    startTime := now }

/-- The method `NextBackOff`; `now` is the value of `time.Now()` and `draw` the value of
`rand.Float64()`.  Returns the updated receiver and the pair of Go results. -/
def NextBackOff (b : ExponentialBackoff) (now : Instant) (draw : ℚ) :
    ExponentialBackoff × (Bool × Duration) :=
  if b.startTime + b.maxElapsedTime < now then
    (b, (false, 0))
  else
    let floatInterval : ℚ := round64 (b.currentInterval : ℚ)
    let b' : ExponentialBackoff :=
      if round64 (round64 (b.maxInterval : ℚ) / multiplier) ≤ floatInterval then
        { b with currentInterval := b.maxInterval }
      else
        { b with currentInterval := toDuration (round64 (floatInterval * multiplier)) }
    (b', (true, toDuration
      (round64 (floatInterval * round64 (1 + round64 (draw * b.randomizationFactor))))))

/-- A sequence of `NextBackOff` calls on one backoff, each given by the instant of the call
and its random draw; the state after the last call. -/
def runCalls (b : ExponentialBackoff) : List (Instant × ℚ) → ExponentialBackoff
  | [] => b
  | c :: cs => runCalls (NextBackOff b c.1 c.2).1 cs

/-- The loop of `TestMaxElapsedTime` and `TestBackoffOverFlow`: call `NextBackOff`, stop when
it returns false, otherwise `time.Sleep` the returned duration and repeat.  `now` is the
instant of the next call, `k` the number of calls made so far, `draws k` the random draw of
call `k`, and `latency k` the time that passes between call `k` and call `k + 1` beyond the
requested sleep (`time.Sleep d` returns after at least `d`, at once when `d ≤ 0`).  The result
is the number of calls made and the instant of the call that returned false. -/
def sleepLoop (draws : Nat → ℚ) (latency : Nat → Nat) :
    Nat → Nat → Instant → ExponentialBackoff → Option (Nat × Instant)
  | 0, _, _, _ => none
  | fuel + 1, k, now, b =>
    match NextBackOff b now (draws k) with
    | (b', (hasNext, duration)) =>
      if hasNext then
        sleepLoop draws latency fuel (k + 1) (now + max duration 0 + latency k) b'
      else
        some (k + 1, now)

/-- The instant of call `k` of the sleep loop and the receiver it is made on, when the loop
gets that far: call 0 is made at `firstCall` on `b`, and call `k + 1` follows call `k` after
the returned duration and the latency. -/
def loopState (draws : Nat → ℚ) (latency : Nat → Nat) (firstCall : Instant)
    (b : ExponentialBackoff) : Nat → Instant × ExponentialBackoff
  | 0 => (firstCall, b)
  | k + 1 =>
    ((loopState draws latency firstCall b k).1
        + max (NextBackOff (loopState draws latency firstCall b k).2
            (loopState draws latency firstCall b k).1 (draws k)).2.2 0
        + latency k,
      (NextBackOff (loopState draws latency firstCall b k).2
        (loopState draws latency firstCall b k).1 (draws k)).1)

/-- The stored interval after `k` calls that all took the growing branch of `NextBackOff`. -/
def growth : Nat → Duration
  | 0 => initialInterval
  | k + 1 => toDuration (round64 (round64 (growth k : ℚ) * multiplier))

/-- A lower bound of the time slept by `k` calls that all took the growing branch: each
wait is short of the stored interval by less than 2049 ns. -/
def growthSlept : Nat → Int
  | 0 => 0
  | k + 1 => growthSlept k + (growth k - 2049)

end backoff

namespace gentlemanretry

/-- A byte slice `[]byte`. -/
abbrev Bytes := List (Fin 256)

/-- A non-nil Go `error`: its message and the structured fields attached to it.  A Go value
of type `error` is an `Option Error`, with `none` for `nil`. -/
structure Error where
  message : String
  fields : List String
  deriving DecidableEq

/-- The function `errors.New`. -/
def errorsNew (message : String) : Error :=
  { message := message, fields := [] }

/-- An `io.ReadCloser`: the bytes it yields from its current position, and the error that
ends reading (`none` for a clean `io.EOF`). -/
structure ReadCloser where
  content : Bytes
  failure : Option Error
  deriving DecidableEq

/-- The function `ioutil.ReadAll`: the bytes read and the error, `none` on success. -/
def ReadAll (r : ReadCloser) : Bytes × Option Error :=
  (r.content, r.failure)

/-- The reader `ioutil.NopCloser(bytes.NewBuffer(body))`: a fresh reader positioned at the
start of `body`. -/
def NopCloser (body : Bytes) : ReadCloser :=
  { content := body, failure := none }

/-- A reader after `n` of its bytes have been consumed. -/
def consume (n : Nat) (r : ReadCloser) : ReadCloser :=
  { r with content := r.content.drop n }

/-- A `context.Context`: the caller's context (with or without a deadline) or a context
derived from a parent by `context.WithTimeout`. -/
inductive Context where
  | caller (hasDeadline : Bool)
  | withTimeout (parent : Context) (timeout : Duration)
  deriving DecidableEq

/-- The second result of `ctx.Deadline()`: whether a deadline is set. -/
def Context.Deadline : Context → Bool
  | Context.caller hasDeadline => hasDeadline
  | Context.withTimeout _ _ => true

/-- The parts of `*http.Request` the round tripper touches: the body reader, the buffer
`GetBody` serves fresh readers from (`none` when `GetBody` is unset) and the context. -/
structure Request where
  Body : Option ReadCloser
  GetBody : Option Bytes
  ctx : Context
  deriving DecidableEq

/-- The parts of `*http.Response` the round tripper touches. -/
structure Response where
  StatusCode : Int
  Body : ReadCloser
  deriving DecidableEq

/-- The constant `http.StatusRequestTimeout`. -/
def StatusRequestTimeout : Int := 408

/-- The type `evalFunc`.  The result is `none` when the call panics. -/
abbrev evalFunc := Option Error → Request → Option Response → Option (Bool × Option Error)

/-- The function `defaultEvaluator`.  With a nil error and a nil response the field access
`res.StatusCode` dereferences nil and the call panics. -/
def defaultEvaluator : evalFunc := fun err _req res =>
  match err with
  | some e => some (true, some e)
  | none =>
    match res with
    | none => none
    | some r =>
      if 500 ≤ r.StatusCode ∨ r.StatusCode = StatusRequestTimeout then
        some (true, some (errorsNew "server response error"))
      else
        some (false, none)

/-- What one call of the underlying `http.RoundTripper` does: the response and error it
returns and the number of bytes it read from the request body. -/
structure RoundTripResult where
  res : Option Response
  err : Option Error
  consumed : Nat

set_option linter.dupNamespace false in
/-- The struct `transport`.  The underlying round tripper `transport` is given per call: its
`k`-th call (counting from 0) on a request.  `gctxResponse` is `t.gctx.Response`. -/
structure transport where
  evaluator : evalFunc
  transport : Nat → Request → RoundTripResult
  gctxResponse : Option Response
  backoffTimeout : Duration
  requestTimeout : Duration
  loggingEnabled : Bool
  logRequest : Bool
  logResponse : Bool

/-- The collaborators outside the package and the nondeterminism of a run: the clock reading
when the backoff is created and at each `NextBackOff` call, the random draws, which case each
`select` takes (`doneFirst k d` is true when `done` is received before the timer of the
`k`-th wait of duration `d` fires), the dump functions of `httputil`, and
`errors.WithFields`. -/
structure Env where
  startTime : Instant
  now : Nat → Instant
  draw : Nat → ℚ
  doneFirst : Nat → Duration → Bool
  DumpRequest : Request → String
  DumpResponse : Response → String
  WithFields : Option Error → List String → Option Error

/-- The observable actions of a run, in program order. -/
inductive Event where
  | readAll
  | closeRequestBody
  | newBackOff
  | withTimeout (timeout : Duration)
  | roundTrip (req : Request)
  | evaluate (err : Option Error) (res : Option Response)
  | cancel (real : Bool)
  | discardBody (res : Response)
  | dumpRequest
  | dumpResponse
  | closeResponseBody (res : Response)
  | nextBackOff (hasNext : Bool) (duration : Duration)
  | timerFired (duration : Duration)
  | doneReceived
  | warn (retryCount : Nat) (err : Option Error)
  deriving DecidableEq

/-- How a call ends: with the returned pair, or `none` when it panics; and the actions
performed. -/
structure Outcome where
  result : Option (Option Response × Option Error)
  trace : List Event

/-- The local variables of `retry` that change between iterations, with the actions so far. -/
structure LoopState where
  req : Request
  realCancel : Bool
  retryCount : Nat
  bOff : backoff.ExponentialBackoff
  trace : List Event

/-- The result of one iteration of the `for` loop of `retry`. -/
inductive Step where
  | done (out : Outcome)
  | next (s : LoopState)

/-- The request as the underlying transport receives it in an iteration: the per-attempt
timeout context and the fresh body reader are attached. -/
def attemptRequest (t : transport) (origCtx : Context) (body : Option Bytes)
    (resetTimeout : Bool) (req : Request) : Request :=
  let req1 : Request :=
    if resetTimeout then { req with ctx := Context.withTimeout origCtx t.requestTimeout }
    else req
  match body with
  | some bs => { req1 with Body := some (NopCloser bs), GetBody := some bs }
  | none => req1

/-- The request after the underlying transport has read `n` bytes of its body. -/
def afterRoundTrip (n : Nat) (req : Request) : Request :=
  { req with Body := req.Body.map (consume n) }

/-- The handling of a retryable attempt's response in `retry` (the block `if res != nil`):
the error carried on and the actions performed. -/
def releaseResponse (t : transport) (env : Env) (req : Request) (res : Option Response)
    (err : Option Error) : Option Error × List Event :=
  match res with
  | none => (err, [])
  | some rs =>
    if !t.logRequest && !t.logResponse then
      (err, [Event.discardBody rs, Event.closeResponseBody rs])
    else
      let fields1 : List String :=
        if t.logRequest then ["request", env.DumpRequest req] else []
      let fields2 : List String :=
        if t.logResponse then fields1 ++ ["response", env.DumpResponse rs] else fields1
      (env.WithFields err fields2,
        (if t.logRequest then [Event.dumpRequest] else []) ++
        (if t.logResponse then [Event.dumpResponse] else []) ++
        [Event.closeResponseBody rs])

/-- One iteration of the `for` loop of `retry`. -/
def iteration (t : transport) (env : Env) (origCtx : Context) (body : Option Bytes)
    (resetTimeout : Bool) (s : LoopState) : Step :=
  let k := s.retryCount
  let realCancel := if resetTimeout then true else s.realCancel
  let tr1 := if resetTimeout then s.trace ++ [Event.withTimeout t.requestTimeout] else s.trace
  let req1 := attemptRequest t origCtx body resetTimeout s.req
  let rt := t.transport k req1
  let req2 := afterRoundTrip rt.consumed req1
  let tr2 := tr1 ++ [Event.roundTrip req1, Event.evaluate rt.err rt.res]
  match t.evaluator rt.err req2 rt.res with
  | none => Step.done { result := none, trace := tr2 }
  | some (false, err) => Step.done { result := some (rt.res, err), trace := tr2 }
  | some (true, err) =>
    let rel := releaseResponse t env req2 rt.res err
    let nb := backoff.NextBackOff s.bOff (env.now k) (env.draw k)
    let tr3 := tr2 ++ [Event.cancel realCancel] ++ rel.2 ++ [Event.nextBackOff nb.2.1 nb.2.2]
    if !nb.2.1 then
      Step.done { result := some (none, rel.1), trace := tr3 }
    else if env.doneFirst k nb.2.2 then
      Step.done { result := some (none, rel.1), trace := tr3 ++ [Event.doneReceived] }
    else
      Step.next
        { req := req2
          realCancel := realCancel
          retryCount := k + 1
          bOff := nb.1
          trace := tr3 ++ [Event.timerFired nb.2.2] ++
            (if t.loggingEnabled then [Event.warn (k + 1) rel.1] else []) }

/-- The `for` loop of `retry`, run for at most `fuel` iterations; `none` when the fuel runs
out before the loop returns. -/
def retryLoop (t : transport) (env : Env) (origCtx : Context) (body : Option Bytes)
    (resetTimeout : Bool) : Nat → LoopState → Option Outcome
  | 0, _ => none
  | fuel + 1, s =>
    match iteration t env origCtx body resetTimeout s with
    | Step.done out => some out
    | Step.next s' => retryLoop t env origCtx body resetTimeout fuel s'

/-- The local variables of `retry` when the loop is entered. -/
def initialState (t : transport) (env : Env) (req : Request) : LoopState :=
  { req := req
    realCancel := false
    retryCount := 0
    bOff := backoff.NewExponentialBackOff env.startTime t.backoffTimeout
      backoff.DefaultMaxInterval backoff.DefaultRandomizationFactor
    trace := [Event.newBackOff] }

/-- The method `retry`. -/
def retry (t : transport) (env : Env) (req : Request) (body : Option Bytes)
    (resetTimeout : Bool) (fuel : Nat) : Option Outcome :=
  retryLoop t env req.ctx body resetTimeout fuel (initialState t env req)

/-- The value of `resetTimeout` computed by `RoundTrip`: a request timeout is configured and
the request's context has no deadline. -/
def resetTimeoutOf (t : transport) (req : Request) : Bool :=
  decide (0 < t.requestTimeout) && !req.ctx.Deadline

/-- An outcome with earlier actions put in front of its trace. -/
def Outcome.after (pre : List Event) (out : Outcome) : Outcome :=
  { out with trace := pre ++ out.trace }

/-- The method `RoundTrip`. -/
def RoundTrip (t : transport) (env : Env) (req : Request) (fuel : Nat) : Option Outcome :=
  match req.Body with
  | some rc =>
    match ReadAll rc with
    | (_, some err) =>
      some { result := some (t.gctxResponse, some err)
             trace := [Event.readAll, Event.closeRequestBody] }
    | (buf, none) =>
      (retry t env req (some buf) (resetTimeoutOf t req) fuel).map
        (Outcome.after [Event.readAll, Event.closeRequestBody])
  | none =>
    retry t env req none (resetTimeoutOf t req) fuel

/-- The state at the start of iteration `n` of the loop (counting from 0), when the loop gets
that far. -/
def stateAt (t : transport) (env : Env) (origCtx : Context) (body : Option Bytes)
    (resetTimeout : Bool) (s : LoopState) : Nat → Option LoopState
  | 0 => some s
  | n + 1 =>
    match stateAt t env origCtx body resetTimeout s n with
    | some s' =>
      match iteration t env origCtx body resetTimeout s' with
      | Step.next s'' => some s''
      | Step.done _ => none
    | none => none

/-- The request of a call to the underlying transport, for the events that are one. -/
def Event.asRoundTrip : Event → Option Request
  | Event.roundTrip req => some req
  | _ => none

/-- Whether an event is a call of the evaluator. -/
def Event.isEvaluate : Event → Bool
  | Event.evaluate _ _ => true
  | _ => false

/-- Whether an event is a call of `NextBackOff`. -/
def Event.isNextBackOff : Event → Bool
  | Event.nextBackOff _ _ => true
  | _ => false

/-- The requests handed to the underlying transport, in order. -/
def transportCalls (trace : List Event) : List Request :=
  trace.filterMap Event.asRoundTrip

/-- The number of evaluator calls in a trace. -/
def evaluatorCalls (trace : List Event) : Nat :=
  trace.countP Event.isEvaluate

/-- The number of `NextBackOff` calls in a trace. -/
def backoffCalls (trace : List Event) : Nat :=
  trace.countP Event.isNextBackOff

/-! ### A concrete run

A request with a three-byte body, sent through a transport whose every call fails with a
connection error after reading two bytes of the body, under a clock that stands still. -/

/-- A request with the body `1, 2, 3` on a context without a deadline. -/
def exampleRequest : Request :=
  { Body := some { content := [1, 2, 3], failure := none }
    GetBody := none
    ctx := Context.caller false }

/-- A request whose body yields one byte and then fails with `unexpected EOF`. -/
def brokenRequest : Request :=
  { Body := some { content := [1], failure := some (errorsNew "unexpected EOF") }
    GetBody := none
    ctx := Context.caller false }

/-- An environment whose clock stands at the creation instant, whose draws are all 0 and
in which `done` is received during wait number `cancelAt` (counting from 0) and no earlier;
`WithFields` appends the fields to a non-nil error. -/
def exampleEnv (cancelAt : Nat) : Env :=
  { startTime := 0
    now := fun _ => 0
    draw := fun _ => 0
    doneFirst := fun k _ => decide (cancelAt ≤ k)
    DumpRequest := fun _ => "request dump"
    DumpResponse := fun _ => "response dump"
    WithFields := fun err fields => err.map fun e => { e with fields := e.fields ++ fields } }

/-- A transport with the settings of `Middleware` without options, over a round tripper whose
every call fails with `connection refused` after reading two bytes of the request body. -/
def failingTransport : transport :=
  { evaluator := defaultEvaluator
    transport := fun _ _ =>
      { res := none, err := some (errorsNew "connection refused"), consumed := 2 }
    gctxResponse := none
    backoffTimeout := backoff.DefaultMaxElapsedTime
    requestTimeout := 0
    loggingEnabled := false
    logRequest := false
    logResponse := false }

/-- A transport with the settings of `Middleware` without options, over a round tripper that
answers every call with status `status` and an empty body. -/
def answeringTransport (status : Int) : transport :=
  { evaluator := defaultEvaluator
    transport := fun _ _ =>
      { res := some { StatusCode := status, Body := NopCloser [] }, err := none, consumed := 3 }
    gctxResponse := none
    backoffTimeout := backoff.DefaultMaxElapsedTime
    requestTimeout := 0
    loggingEnabled := false
    logRequest := false
    logResponse := false }

end gentlemanretry
/-! ## binary64 rounding -/

theorem log2Fuel_spec (fuel : Nat) :
    ∀ n, 0 < n → n ≤ fuel → 2 ^ log2Fuel fuel n ≤ n ∧ n < 2 ^ (log2Fuel fuel n + 1) := by
  induction fuel with
  | zero => intro n h0 h1; omega
  | succ fuel ih =>
    intro n h0 h1
    unfold log2Fuel
    split
    · constructor <;> simp <;> omega
    · rename_i h2
      have h3 := ih (n / 2) (by omega) (by omega)
      obtain ⟨h4, h5⟩ := h3
      constructor
      · rw [pow_succ]; omega
      · rw [pow_succ]; omega

theorem natLog2_spec (n : Nat) (h : 0 < n) :
    2 ^ natLog2 n ≤ n ∧ n < 2 ^ (natLog2 n + 1) :=
  log2Fuel_spec n n h (le_refl n)

theorem pow2_eq (e : Int) : pow2 e = (2 : ℚ) ^ e := by
  unfold pow2
  split
  · rename_i h
    obtain ⟨k, rfl⟩ := Int.eq_ofNat_of_zero_le h
    simp
  · rename_i h
    obtain ⟨k, hk⟩ := Int.eq_ofNat_of_zero_le (show 0 ≤ -e by omega)
    have he : e = -(k : Int) := by omega
    subst he
    simp

theorem pow2_pos (e : Int) : 0 < pow2 e := by
  rw [pow2_eq]; positivity

theorem ilog2_spec (x : ℚ) (hx : 0 < x) :
    (2 : ℚ) ^ ilog2 x ≤ x ∧ x < (2 : ℚ) ^ (ilog2 x + 1) := by
  have hnum : 0 < x.num := Rat.num_pos.mpr hx
  have hden : 0 < x.den := x.den_pos
  obtain ⟨a1, a2⟩ := natLog2_spec x.num.natAbs (by omega)
  obtain ⟨b1, b2⟩ := natLog2_spec x.den hden
  have hcast : (x.num.natAbs : ℚ) = (x.num : ℚ) := by
    rw [Nat.cast_natAbs, abs_of_pos hnum]
  have hmul : x * (x.den : ℚ) = (x.num.natAbs : ℚ) := by
    rw [hcast]; exact Rat.mul_den_eq_num x
  have hdq : (0 : ℚ) < (x.den : ℚ) := by exact_mod_cast hden
  have qa1 : (2 : ℚ) ^ (natLog2 x.num.natAbs) ≤ (x.num.natAbs : ℚ) := by exact_mod_cast a1
  have qa2 : (x.num.natAbs : ℚ) < (2 : ℚ) ^ (natLog2 x.num.natAbs + 1) := by exact_mod_cast a2
  have qb1 : (2 : ℚ) ^ (natLog2 x.den) ≤ (x.den : ℚ) := by exact_mod_cast b1
  have qb2 : (x.den : ℚ) < (2 : ℚ) ^ (natLog2 x.den + 1) := by exact_mod_cast b2
  have hA : (0 : ℚ) < (2 : ℚ) ^ (natLog2 x.num.natAbs) := by positivity
  have hB : (0 : ℚ) < (2 : ℚ) ^ (natLog2 x.den) := by positivity
  have hd : (2 : ℚ) ^ ((natLog2 x.num.natAbs : Int) - (natLog2 x.den : Int))
      = (2 : ℚ) ^ (natLog2 x.num.natAbs) / (2 : ℚ) ^ (natLog2 x.den) := by
    rw [zpow_sub₀ (by norm_num), zpow_natCast, zpow_natCast]
  have hup : x < (2 : ℚ) ^ ((natLog2 x.num.natAbs : Int) - (natLog2 x.den : Int) + 1) := by
    rw [zpow_add_one₀ (by norm_num), hd]
    apply lt_of_mul_lt_mul_right _ (le_of_lt hdq)
    rw [hmul]
    rw [pow_succ] at qa2
    calc (x.num.natAbs : ℚ) < (2 : ℚ) ^ (natLog2 x.num.natAbs) * 2 := qa2
      _ = (2 : ℚ) ^ (natLog2 x.num.natAbs) / (2 : ℚ) ^ (natLog2 x.den) * 2
            * (2 : ℚ) ^ (natLog2 x.den) := by field_simp
      _ ≤ (2 : ℚ) ^ (natLog2 x.num.natAbs) / (2 : ℚ) ^ (natLog2 x.den) * 2 * (x.den : ℚ) := by
          apply mul_le_mul_of_nonneg_left qb1; positivity
  have hlo : (2 : ℚ) ^ ((natLog2 x.num.natAbs : Int) - (natLog2 x.den : Int) - 1) ≤ x := by
    rw [zpow_sub_one₀ (by norm_num), hd]
    apply le_of_mul_le_mul_right _ hdq
    rw [hmul]
    rw [pow_succ] at qb2
    calc (2 : ℚ) ^ (natLog2 x.num.natAbs) / (2 : ℚ) ^ (natLog2 x.den) * 2⁻¹ * (x.den : ℚ)
        ≤ (2 : ℚ) ^ (natLog2 x.num.natAbs) / (2 : ℚ) ^ (natLog2 x.den) * 2⁻¹
            * ((2 : ℚ) ^ (natLog2 x.den) * 2) := by
          apply mul_le_mul_of_nonneg_left (le_of_lt qb2); positivity
      _ = (2 : ℚ) ^ (natLog2 x.num.natAbs) := by field_simp
      _ ≤ (x.num.natAbs : ℚ) := qa1
  unfold ilog2
  dsimp only
  rw [pow2_eq, abs_of_pos hx]
  split
  · rename_i h
    exact ⟨h, hup⟩
  · rename_i h
    refine ⟨hlo, ?_⟩
    rw [sub_add_cancel]
    exact not_le.mp h

theorem roundHalfEven_ge (y : ℚ) : y - 1 / 2 ≤ (roundHalfEven y : ℚ) := by
  have h1 := Int.floor_le y
  have h2 := Int.lt_floor_add_one y
  unfold roundHalfEven
  dsimp only
  split
  · linarith
  · split
    · push_cast; linarith
    · split
      · linarith
      · push_cast; linarith

theorem roundHalfEven_le (y : ℚ) : (roundHalfEven y : ℚ) ≤ y + 1 / 2 := by
  have h1 := Int.floor_le y
  have h2 := Int.lt_floor_add_one y
  unfold roundHalfEven
  dsimp only
  split
  · linarith
  · split
    · push_cast; linarith
    · rename_i h3 h4
      split
      · linarith
      · push_cast; linarith

theorem le_roundHalfEven (m : Int) (y : ℚ) (h : (m : ℚ) ≤ y) : m ≤ roundHalfEven y := by
  have h1 : m ≤ ⌊y⌋ := Int.le_floor.mpr h
  unfold roundHalfEven
  dsimp only
  split
  · exact h1
  · split
    · omega
    · split
      · exact h1
      · omega

theorem roundHalfEven_le_of_le (m : Int) (y : ℚ) (h : y ≤ (m : ℚ)) : roundHalfEven y ≤ m := by
  have h0 := Int.floor_le y
  have h1 : ⌊y⌋ ≤ m := by
    have : ((⌊y⌋ : Int) : ℚ) ≤ (m : ℚ) := le_trans h0 h
    exact_mod_cast this
  have key : (1 : ℚ) / 2 ≤ y - ⌊y⌋ → ⌊y⌋ + 1 ≤ m := by
    intro h2
    have : ((⌊y⌋ : Int) : ℚ) < (m : ℚ) := by linarith
    have : ⌊y⌋ < m := by exact_mod_cast this
    omega
  unfold roundHalfEven
  dsimp only
  split
  · exact h1
  · rename_i h3
    split
    · exact key (not_lt.mp h3)
    · split
      · exact h1
      · exact key (not_lt.mp h3)

theorem roundHalfEven_intCast (m : Int) : roundHalfEven (m : ℚ) = m :=
  le_antisymm (roundHalfEven_le_of_le m _ (le_refl _)) (le_roundHalfEven m _ (le_refl _))

theorem quantum_pos (x : ℚ) : 0 < quantum x := pow2_pos _

theorem round64_zero : round64 0 = 0 := by
  unfold round64
  rw [if_pos rfl]

theorem round64_of_pos (x : ℚ) (hx : 0 < x) :
    round64 x = (roundHalfEven (x / quantum x) : ℚ) * quantum x := by
  unfold round64
  rw [if_neg (ne_of_gt hx)]

/-- Below `2 ^ 53` the spacing is the reciprocal of a whole number. -/
theorem quantum_small (x : ℚ) (h : max (ilog2 x) (-1022) ≤ 52) :
    ∃ K : Nat, quantum x * ((2 ^ K : Nat) : ℚ) = 1 ∧
      (52 : Int) - max (ilog2 x) (-1022) = (K : Int) := by
  obtain ⟨K, hK⟩ := Int.eq_ofNat_of_zero_le (show 0 ≤ 52 - max (ilog2 x) (-1022) by omega)
  refine ⟨K, ?_, hK⟩
  unfold quantum
  rw [pow2_eq, show max (ilog2 x) (-1022) - 52 = -(K : Int) by omega]
  push_cast
  rw [zpow_neg, zpow_natCast]
  field_simp

/-- From `2 ^ 53` on the value is at least `2 ^ 52` spacings. -/
theorem quantum_large (x : ℚ) (hx : 0 < x) (h : 53 ≤ max (ilog2 x) (-1022)) :
    max (ilog2 x) (-1022) = ilog2 x ∧ (2 : ℚ) ^ (52 : Nat) * quantum x = (2 : ℚ) ^ ilog2 x ∧
      (2 : ℚ) ^ (52 : Nat) * quantum x ≤ x := by
  have he : max (ilog2 x) (-1022) = ilog2 x := by
    rcases le_total (ilog2 x) (-1022) with h1 | h1
    · rw [max_eq_right h1] at h; omega
    · exact max_eq_left h1
  have hq : (2 : ℚ) ^ (52 : Nat) * quantum x = (2 : ℚ) ^ ilog2 x := by
    unfold quantum
    rw [pow2_eq, he, ← zpow_natCast, ← zpow_add₀ (by norm_num)]
    congr 1
    omega
  exact ⟨he, hq, hq ▸ (ilog2_spec x hx).1⟩

theorem le_round64 (n : Int) (hn0 : 0 ≤ n) (hn : n ≤ 2 ^ 53) (x : ℚ) (h : (n : ℚ) ≤ x) :
    (n : ℚ) ≤ round64 x := by
  have hn0q : (0 : ℚ) ≤ (n : ℚ) := by exact_mod_cast hn0
  rcases eq_or_lt_of_le (le_trans hn0q h) with hx0 | hx
  · rw [← hx0, round64_zero]; rw [← hx0] at h; exact h
  rw [round64_of_pos x hx]
  have hq := quantum_pos x
  rcases le_or_lt (max (ilog2 x) (-1022)) 52 with he | he
  · obtain ⟨K, hK, -⟩ := quantum_small x he
    have hy : ((n * 2 ^ K : Int) : ℚ) ≤ x / quantum x := by
      rw [le_div_iff₀ hq]
      push_cast
      push_cast at hK
      calc (n : ℚ) * 2 ^ K * quantum x = (n : ℚ) * (quantum x * 2 ^ K) := by ring
        _ = (n : ℚ) := by rw [hK, mul_one]
        _ ≤ x := h
    have hr := le_roundHalfEven _ _ hy
    have hrq : ((n * 2 ^ K : Int) : ℚ) ≤ (roundHalfEven (x / quantum x) : ℚ) := by
      exact_mod_cast hr
    push_cast at hrq hK
    calc (n : ℚ) = (n : ℚ) * 2 ^ K * quantum x := by
          rw [mul_assoc, mul_comm ((2 : ℚ) ^ K), hK, mul_one]
      _ ≤ (roundHalfEven (x / quantum x) : ℚ) * quantum x :=
          mul_le_mul_of_nonneg_right hrq (le_of_lt hq)
  · obtain ⟨hi, hq2, hle⟩ := quantum_large x hx (by omega)
    have hy : (((2 : Int) ^ (52 : Nat) : Int) : ℚ) ≤ x / quantum x := by
      rw [le_div_iff₀ hq]
      push_cast
      exact hle
    have hr := le_roundHalfEven _ _ hy
    have hrq : (((2 : Int) ^ (52 : Nat) : Int) : ℚ) ≤ (roundHalfEven (x / quantum x) : ℚ) := by
      exact_mod_cast hr
    push_cast at hrq
    have h53 : (2 : ℚ) ^ (53 : Int) ≤ (2 : ℚ) ^ ilog2 x := by
      apply zpow_le_zpow_right₀ (by norm_num)
      omega
    have hnq : (n : ℚ) ≤ (2 : ℚ) ^ (53 : Int) := by
      have : (n : ℚ) ≤ ((2 ^ 53 : Int) : ℚ) := by exact_mod_cast hn
      rw [show (2 : ℚ) ^ (53 : Int) = ((2 ^ 53 : Int) : ℚ) by norm_num]
      exact this
    calc (n : ℚ) ≤ (2 : ℚ) ^ (53 : Int) := hnq
      _ ≤ (2 : ℚ) ^ ilog2 x := h53
      _ = (2 : ℚ) ^ (52 : Nat) * quantum x := hq2.symm
      _ ≤ (roundHalfEven (x / quantum x) : ℚ) * quantum x :=
          mul_le_mul_of_nonneg_right hrq (le_of_lt hq)
theorem round64_le (n : Int) (hn : n ≤ 2 ^ 53) (x : ℚ) (hx0 : 0 ≤ x) (h : x ≤ (n : ℚ)) :
    round64 x ≤ (n : ℚ) := by
  rcases eq_or_lt_of_le hx0 with hx0 | hx
  · rw [← hx0, round64_zero]; rw [← hx0] at h; exact h
  rw [round64_of_pos x hx]
  have hq := quantum_pos x
  rcases le_or_lt (max (ilog2 x) (-1022)) 52 with he | he
  · obtain ⟨K, hK, -⟩ := quantum_small x he
    have hy : x / quantum x ≤ ((n * 2 ^ K : Int) : ℚ) := by
      rw [div_le_iff₀ hq]
      push_cast
      push_cast at hK
      calc x ≤ (n : ℚ) := h
        _ = (n : ℚ) * (quantum x * 2 ^ K) := by rw [hK, mul_one]
        _ = (n : ℚ) * 2 ^ K * quantum x := by ring
    have hr := roundHalfEven_le_of_le _ _ hy
    have hrq : (roundHalfEven (x / quantum x) : ℚ) ≤ ((n * 2 ^ K : Int) : ℚ) := by
      exact_mod_cast hr
    push_cast at hrq hK
    calc (roundHalfEven (x / quantum x) : ℚ) * quantum x
        ≤ (n : ℚ) * 2 ^ K * quantum x := mul_le_mul_of_nonneg_right hrq (le_of_lt hq)
      _ = (n : ℚ) := by rw [mul_assoc, mul_comm ((2 : ℚ) ^ K), hK, mul_one]
  · obtain ⟨hi, hq2, hle⟩ := quantum_large x hx (by omega)
    have h53 : (2 : ℚ) ^ (53 : Int) ≤ (2 : ℚ) ^ ilog2 x := by
      apply zpow_le_zpow_right₀ (by norm_num)
      omega
    have hnq : (n : ℚ) ≤ (2 : ℚ) ^ (53 : Int) := by
      have : (n : ℚ) ≤ ((2 ^ 53 : Int) : ℚ) := by exact_mod_cast hn
      rw [show (2 : ℚ) ^ (53 : Int) = ((2 ^ 53 : Int) : ℚ) by norm_num]
      exact this
    have hxe : x = (2 : ℚ) ^ (52 : Nat) * quantum x := by
      apply le_antisymm _ hle
      rw [hq2]
      exact le_trans h (le_trans hnq h53)
    have hy : x / quantum x = (((2 : Int) ^ (52 : Nat) : Int) : ℚ) := by
      rw [div_eq_iff (ne_of_gt hq)]
      push_cast
      exact hxe
    rw [hy, roundHalfEven_intCast]
    have hxe' : ((((2 : Int) ^ (52 : Nat) : Int) : ℚ)) * quantum x = x := by
      push_cast
      exact hxe.symm
    rw [hxe']
    exact h

theorem round64_intCast (n : Int) (hn0 : 0 ≤ n) (hn : n ≤ 2 ^ 53) : round64 (n : ℚ) = (n : ℚ) :=
  le_antisymm (round64_le n hn _ (by exact_mod_cast hn0) (le_refl _))
    (le_round64 n hn0 hn _ (le_refl _))

theorem round64_nonneg (x : ℚ) (hx : 0 ≤ x) : 0 ≤ round64 x := by
  have := le_round64 0 (le_refl _) (by norm_num) x (by simpa using hx)
  simpa using this

/-- The rounding error is at most half the spacing. -/
theorem round64_error (x : ℚ) (hx : 0 < x) : |round64 x - x| ≤ quantum x / 2 := by
  rw [round64_of_pos x hx]
  have hq := quantum_pos x
  have h1 := roundHalfEven_ge (x / quantum x)
  have h2 := roundHalfEven_le (x / quantum x)
  have hy : x / quantum x * quantum x = x := div_mul_cancel₀ x (ne_of_gt hq)
  rw [abs_le]
  constructor
  · have := mul_le_mul_of_nonneg_right h1 (le_of_lt hq)
    rw [sub_mul, hy] at this
    linarith
  · have := mul_le_mul_of_nonneg_right h2 (le_of_lt hq)
    rw [add_mul, hy] at this
    linarith

theorem ilog2_lt (x : ℚ) (hx : 0 < x) (k : Int) (h : x < (2 : ℚ) ^ k) : ilog2 x < k := by
  have h1 := (ilog2_spec x hx).1
  have h2 : (2 : ℚ) ^ ilog2 x < (2 : ℚ) ^ k := lt_of_le_of_lt h1 h
  exact (zpow_lt_zpow_iff_right₀ (by norm_num)).mp h2

theorem le_ilog2 (x : ℚ) (hx : 0 < x) (k : Int) (h : (2 : ℚ) ^ k ≤ x) : k ≤ ilog2 x := by
  have h1 := (ilog2_spec x hx).2
  have h2 : (2 : ℚ) ^ k < (2 : ℚ) ^ (ilog2 x + 1) := lt_of_le_of_lt h h1
  have := (zpow_lt_zpow_iff_right₀ (by norm_num)).mp h2
  omega

/-- Below `2 ^ 52` the rounding error is at most a quarter. -/
theorem round64_error_small (x : ℚ) (hx : 0 < x) (h : x < 4503599627370496) :
    |round64 x - x| ≤ 1 / 4 := by
  have hi : ilog2 x < 52 := ilog2_lt x hx 52 (by norm_num; exact h)
  have hq : quantum x ≤ 1 / 2 := by
    unfold quantum
    rw [pow2_eq]
    calc (2 : ℚ) ^ (max (ilog2 x) (-1022) - 52) ≤ (2 : ℚ) ^ (-1 : Int) := by
          apply zpow_le_zpow_right₀ (by norm_num)
          have : max (ilog2 x) (-1022) ≤ 51 := max_le (by omega) (by norm_num)
          omega
      _ = 1 / 2 := by norm_num
  have := round64_error x hx
  linarith

/-- From `1 / 2` on the relative rounding error is at most `2 ^ -53`. -/
theorem round64_error_rel (x : ℚ) (hx : 1 / 2 ≤ x) :
    |round64 x - x| ≤ x / 9007199254740992 := by
  have hx0 : 0 < x := by linarith
  have hi : -1 ≤ ilog2 x := le_ilog2 x hx0 (-1) (by norm_num; linarith)
  have he : max (ilog2 x) (-1022) = ilog2 x := max_eq_left (by omega)
  have hq : quantum x = (2 : ℚ) ^ ilog2 x / 4503599627370496 := by
    unfold quantum
    rw [pow2_eq, he, zpow_sub₀ (by norm_num)]
    norm_num
  have h1 := (ilog2_spec x hx0).1
  have := round64_error x hx0
  rw [hq] at this
  calc |round64 x - x| ≤ (2 : ℚ) ^ ilog2 x / 4503599627370496 / 2 := this
    _ = (2 : ℚ) ^ ilog2 x / 9007199254740992 := by ring
    _ ≤ x / 9007199254740992 := by
        apply div_le_div_of_nonneg_right h1; norm_num

/-- Halves of whole numbers below `2 ^ 52` are binary64 values. -/
theorem round64_half (k : Int) (hk0 : 0 ≤ k) (hk : (k : ℚ) / 2 < 4503599627370496) :
    round64 ((k : ℚ) / 2) = (k : ℚ) / 2 := by
  rcases eq_or_lt_of_le hk0 with hk0 | hkpos
  · rw [← hk0]; simp [round64_zero]
  have hx : (0 : ℚ) < (k : ℚ) / 2 := by
    have : (0 : ℚ) < (k : ℚ) := by exact_mod_cast hkpos
    linarith
  have hi : ilog2 ((k : ℚ) / 2) < 52 := ilog2_lt _ hx 52 (by norm_num; exact hk)
  have he : max (ilog2 ((k : ℚ) / 2)) (-1022) ≤ 51 := max_le (by omega) (by norm_num)
  obtain ⟨K, hK, hKe⟩ := quantum_small ((k : ℚ) / 2) (by omega)
  obtain ⟨J, rfl⟩ : ∃ J, K = J + 1 := ⟨K - 1, by omega⟩
  have hq := quantum_pos ((k : ℚ) / 2)
  push_cast at hK
  have hy : (k : ℚ) / 2 / quantum ((k : ℚ) / 2) = ((k * 2 ^ J : Int) : ℚ) := by
    rw [div_eq_iff (ne_of_gt hq)]
    push_cast
    calc (k : ℚ) / 2 = (k : ℚ) / 2 * (quantum ((k : ℚ) / 2) * 2 ^ (J + 1)) := by
          rw [hK, mul_one]
      _ = (k : ℚ) * 2 ^ J * quantum ((k : ℚ) / 2) := by rw [pow_succ]; ring
  rw [round64_of_pos _ hx, hy, roundHalfEven_intCast, ← hy]
  exact div_mul_cancel₀ _ (ne_of_gt hq)

/-! ## Conversion to `time.Duration` -/

theorem le_truncate {n : Int} {x : ℚ} (h0 : 0 ≤ x) (h : (n : ℚ) ≤ x) : n ≤ truncate x := by
  unfold truncate
  rw [if_pos h0]
  exact Int.le_floor.mpr h

theorem truncate_le {n : Int} {x : ℚ} (h : x ≤ (n : ℚ)) : truncate x ≤ n := by
  unfold truncate
  split
  · have h1 : ((⌊x⌋ : Int) : ℚ) ≤ (n : ℚ) := le_trans (Int.floor_le x) h
    exact_mod_cast h1
  · exact Int.ceil_le.mpr h

theorem truncate_of_nonneg {x : ℚ} (h0 : 0 ≤ x) : truncate x = ⌊x⌋ := by
  unfold truncate
  rw [if_pos h0]

theorem toDuration_of_range {x : ℚ} (h0 : 0 ≤ x) (h : x ≤ 9223372036854775807) :
    toDuration x = ⌊x⌋ := by
  have h1 : (0 : Int) ≤ truncate x := le_truncate h0 (by simpa using h0)
  have h2 : truncate x ≤ 9223372036854775807 := truncate_le (by exact_mod_cast h)
  unfold toDuration MinInt64 MaxInt64
  rw [if_pos ⟨by omega, h2⟩]
  exact truncate_of_nonneg h0
/-! ## Frame lemmas for `NextBackOff` -/

namespace backoff

theorem NextBackOff_expired (b : ExponentialBackoff) (now : Instant) (draw : ℚ)
    (h : b.startTime + b.maxElapsedTime < now) : NextBackOff b now draw = (b, (false, 0)) := by
  unfold NextBackOff
  rw [if_pos h]

theorem NextBackOff_hasNext (b : ExponentialBackoff) (now : Instant) (draw : ℚ) :
    (NextBackOff b now draw).2.1 = decide (now ≤ b.startTime + b.maxElapsedTime) := by
  unfold NextBackOff
  by_cases h : b.startTime + b.maxElapsedTime < now
  · rw [if_pos h]
    simp only [Bool.false_eq, decide_eq_false_iff_not, not_le]
    exact h
  · rw [if_neg h]
    simp only [Bool.true_eq, decide_eq_true_eq]
    exact not_lt.mp h

theorem NextBackOff_duration (b : ExponentialBackoff) (now : Instant) (draw : ℚ)
    (h : now ≤ b.startTime + b.maxElapsedTime) :
    (NextBackOff b now draw).2.2 =
      toDuration (round64 (round64 (b.currentInterval : ℚ)
        * round64 (1 + round64 (draw * b.randomizationFactor)))) := by
  unfold NextBackOff
  rw [if_neg (not_lt.mpr h)]

theorem NextBackOff_currentInterval (b : ExponentialBackoff) (now : Instant) (draw : ℚ)
    (h : now ≤ b.startTime + b.maxElapsedTime) :
    (NextBackOff b now draw).1.currentInterval =
      if round64 (round64 (b.maxInterval : ℚ) / multiplier) ≤ round64 (b.currentInterval : ℚ)
      then b.maxInterval
      else toDuration (round64 (round64 (b.currentInterval : ℚ) * multiplier)) := by
  unfold NextBackOff
  rw [if_neg (not_lt.mpr h)]
  dsimp only
  split <;> rfl

theorem NextBackOff_frame (b : ExponentialBackoff) (now : Instant) (draw : ℚ) :
    (NextBackOff b now draw).1.startTime = b.startTime ∧
    (NextBackOff b now draw).1.maxElapsedTime = b.maxElapsedTime ∧
    (NextBackOff b now draw).1.maxInterval = b.maxInterval ∧
    (NextBackOff b now draw).1.randomizationFactor = b.randomizationFactor := by
  unfold NextBackOff
  split
  · exact ⟨rfl, rfl, rfl, rfl⟩
  · dsimp only
    split <;> exact ⟨rfl, rfl, rfl, rfl⟩

theorem runCalls_frame (calls : List (Instant × ℚ)) (b : ExponentialBackoff) :
    (runCalls b calls).startTime = b.startTime ∧
    (runCalls b calls).maxElapsedTime = b.maxElapsedTime ∧
    (runCalls b calls).maxInterval = b.maxInterval ∧
    (runCalls b calls).randomizationFactor = b.randomizationFactor := by
  induction calls generalizing b with
  | nil => exact ⟨rfl, rfl, rfl, rfl⟩
  | cons c cs ih =>
    obtain ⟨h1, h2, h3, h4⟩ := ih (NextBackOff b c.1 c.2).1
    obtain ⟨g1, g2, g3, g4⟩ := NextBackOff_frame b c.1 c.2
    simp only [runCalls]
    exact ⟨h1.trans g1, h2.trans g2, h3.trans g3, h4.trans g4⟩

theorem initialInterval_nonneg : (0 : Duration) ≤ initialInterval := by decide

theorem initialInterval_pos : (1 : Duration) ≤ initialInterval := by decide

/-- The jitter factor `1 + draw * randomizationFactor`, as computed, lies between 1 and 2. -/
theorem jitter_bounds (draw r : ℚ) (hd0 : 0 ≤ draw) (hd1 : draw < 1) (hr0 : 0 ≤ r)
    (hr1 : r ≤ 1) :
    1 ≤ round64 (1 + round64 (draw * r)) ∧ round64 (1 + round64 (draw * r)) ≤ 2 := by
  have hp0 : 0 ≤ draw * r := mul_nonneg hd0 hr0
  have hp1 : draw * r ≤ 1 := by nlinarith
  have hA0 := round64_nonneg _ hp0
  have hA1 : round64 (draw * r) ≤ ((1 : Int) : ℚ) :=
    round64_le 1 (by norm_num) _ hp0 (by simpa using hp1)
  have hB0 : ((1 : Int) : ℚ) ≤ round64 (1 + round64 (draw * r)) :=
    le_round64 1 (by norm_num) (by norm_num) _ (by push_cast; linarith)
  have hB1 : round64 (1 + round64 (draw * r)) ≤ ((2 : Int) : ℚ) :=
    round64_le 2 (by norm_num) _ (by linarith) (by push_cast at hA1 ⊢; linarith)
  push_cast at hB0 hB1
  exact ⟨hB0, hB1⟩

/-- A rounded value exceeds the exact one by at most its `2 ^ -53` part, or stays below 1. -/
theorem round64_upper (x : ℚ) (hx : 0 ≤ x) : round64 x ≤ x + x / 9007199254740992 + 1 := by
  rcases le_or_lt (1 / 2) x with h | h
  · have := round64_error_rel x h
    rw [abs_le] at this
    linarith
  · have h1 : round64 x ≤ ((1 : Int) : ℚ) :=
      round64_le 1 (by norm_num) x hx (by push_cast; linarith)
    push_cast at h1
    have : 0 ≤ x / 9007199254740992 := by positivity
    linarith

/-- The exact form of a non-expired call on intervals up to `2 ^ 52` ns: the float
comparison and the float product agree with the exact ones. -/
theorem NextBackOff_exact (b : ExponentialBackoff) (now : Instant) (draw : ℚ)
    (hc0 : 0 ≤ b.currentInterval) (hc : b.currentInterval ≤ 4503599627370496)
    (hM0 : 0 < b.maxInterval) (hM : b.maxInterval ≤ 4503599627370496)
    (hne : now ≤ b.startTime + b.maxElapsedTime) :
    (NextBackOff b now draw).1.currentInterval =
      if (b.maxInterval : ℚ) / multiplier ≤ (b.currentInterval : ℚ) then b.maxInterval
      else ⌊(b.currentInterval : ℚ) * multiplier⌋ := by
  rw [NextBackOff_currentInterval b now draw hne]
  have hcq0 : (0 : ℚ) ≤ (b.currentInterval : ℚ) := by exact_mod_cast hc0
  have hcq : (b.currentInterval : ℚ) ≤ 4503599627370496 := by exact_mod_cast hc
  have hMq0 : (0 : ℚ) < (b.maxInterval : ℚ) := by exact_mod_cast hM0
  have hMq : (b.maxInterval : ℚ) ≤ 4503599627370496 := by exact_mod_cast hM
  rw [round64_intCast b.currentInterval hc0 (le_trans hc (by norm_num)),
    round64_intCast b.maxInterval (le_of_lt hM0) (le_trans hM (by norm_num))]
  unfold multiplier
  have hx0 : (0 : ℚ) < (b.maxInterval : ℚ) / (3 / 2) := by positivity
  have hx1 : (b.maxInterval : ℚ) / (3 / 2) < 4503599627370496 := by
    rw [div_lt_iff₀ (by norm_num)]; linarith
  have hcmp : round64 ((b.maxInterval : ℚ) / (3 / 2)) ≤ (b.currentInterval : ℚ)
      ↔ (b.maxInterval : ℚ) / (3 / 2) ≤ (b.currentInterval : ℚ) := by
    constructor
    · intro h
      by_contra hlt
      have hlt := not_le.mp hlt
      rw [lt_div_iff₀ (by norm_num)] at hlt
      have h3 : 3 * b.currentInterval < 2 * b.maxInterval := by
        have : ((3 * b.currentInterval : Int) : ℚ) < ((2 * b.maxInterval : Int) : ℚ) := by
          push_cast; linarith
        exact_mod_cast this
      have h4 : 3 * b.currentInterval + 1 ≤ 2 * b.maxInterval := Int.add_one_le_iff.mpr h3
      have h5 : (3 : ℚ) * (b.currentInterval : ℚ) + 1 ≤ 2 * (b.maxInterval : ℚ) := by
        exact_mod_cast h4
      have herr := round64_error_small _ hx0 hx1
      rw [abs_le] at herr
      have : (b.maxInterval : ℚ) / (3 / 2) = 2 * (b.maxInterval : ℚ) / 3 := by ring
      rw [this] at herr h
      linarith [herr.1]
    · intro h
      exact round64_le b.currentInterval (le_trans hc (by norm_num)) _ (le_of_lt hx0) h
  by_cases hge : (b.maxInterval : ℚ) / (3 / 2) ≤ (b.currentInterval : ℚ)
  · rw [if_pos (hcmp.mpr hge), if_pos hge]
  · rw [if_neg (fun h => hge (hcmp.mp h)), if_neg hge]
    have hlt := not_le.mp hge
    rw [lt_div_iff₀ (by norm_num)] at hlt
    have hhalf : (b.currentInterval : ℚ) * (3 / 2) = ((3 * b.currentInterval : Int) : ℚ) / 2 := by
      push_cast; ring
    have hex : round64 ((b.currentInterval : ℚ) * (3 / 2)) = (b.currentInterval : ℚ) * (3 / 2) := by
      rw [hhalf]
      exact round64_half _ (mul_nonneg (by norm_num) hc0) (by rw [← hhalf]; linarith)
    rw [hex]
    exact toDuration_of_range (by positivity) (by linarith)

end backoff
/-! ## The elapsed-time budget -/

/-- C2. For a backoff created by `NewExponentialBackOff` at `startTime`, after any earlier
calls, a `NextBackOff` call at instant `now` returns `(false, 0)` when `now` is strictly after
`startTime + maxElapsedTime` and returns `shouldRetry = true` when `now` is at or before it;
and once a call has returned false, every later call (at an instant not before it, whatever
calls came in between at such instants) returns false too. -/
theorem backoff_budget_expiry (startTime : Instant) (maxElapsedTime maxInterval : Duration)
    (r : ℚ) (earlier : List (Instant × ℚ)) (now : Instant) (draw : ℚ) :
    (startTime + maxElapsedTime < now →
      (backoff.NextBackOff (backoff.runCalls
        (backoff.NewExponentialBackOff startTime maxElapsedTime maxInterval r) earlier)
        now draw).2 = (false, 0)) ∧
    (now ≤ startTime + maxElapsedTime →
      (backoff.NextBackOff (backoff.runCalls
        (backoff.NewExponentialBackOff startTime maxElapsedTime maxInterval r) earlier)
        now draw).2.1 = true) ∧
    ((backoff.NextBackOff (backoff.runCalls
        (backoff.NewExponentialBackOff startTime maxElapsedTime maxInterval r) earlier)
        now draw).2.1 = false →
      ∀ (between : List (Instant × ℚ)) (later : Instant) (draw' : ℚ),
        (∀ c ∈ between, now ≤ c.1) → now ≤ later →
        (backoff.NextBackOff (backoff.runCalls (backoff.NextBackOff (backoff.runCalls
          (backoff.NewExponentialBackOff startTime maxElapsedTime maxInterval r) earlier)
          now draw).1 between) later draw').2 = (false, 0)) := by
  obtain ⟨hs, hm, -, -⟩ := backoff.runCalls_frame earlier
    (backoff.NewExponentialBackOff startTime maxElapsedTime maxInterval r)
  have hs' : (backoff.runCalls
      (backoff.NewExponentialBackOff startTime maxElapsedTime maxInterval r) earlier).startTime
      = startTime := hs
  have hm' : (backoff.runCalls
      (backoff.NewExponentialBackOff startTime maxElapsedTime maxInterval r)
      earlier).maxElapsedTime = maxElapsedTime := hm
  refine ⟨fun h => ?_, fun h => ?_, fun h between later draw' _ hl => ?_⟩
  · rw [backoff.NextBackOff_expired _ _ _ (by rw [hs', hm']; exact h)]
  · rw [backoff.NextBackOff_hasNext, hs', hm']
    exact decide_eq_true h
  · rw [backoff.NextBackOff_hasNext, hs', hm'] at h
    have hlt : startTime + maxElapsedTime < now := not_le.mp (of_decide_eq_false h)
    obtain ⟨f1, f2, -, -⟩ := backoff.runCalls_frame between (backoff.NextBackOff (backoff.runCalls
      (backoff.NewExponentialBackOff startTime maxElapsedTime maxInterval r) earlier)
      now draw).1
    obtain ⟨g1, g2, -, -⟩ := backoff.NextBackOff_frame (backoff.runCalls
      (backoff.NewExponentialBackOff startTime maxElapsedTime maxInterval r) earlier) now draw
    rw [backoff.NextBackOff_expired]
    rw [f1, f2, g1, g2, hs', hm']
    exact lt_of_lt_of_le hlt hl

/-! ## The stored interval -/

namespace backoff

theorem NextBackOff_interval_exact (b : ExponentialBackoff) (now : Instant) (draw : ℚ)
    (hc0 : 0 ≤ b.currentInterval) (hc : b.currentInterval ≤ 4503599627370496)
    (hM0 : 0 < b.maxInterval) (hM : b.maxInterval ≤ 4503599627370496) :
    0 ≤ (NextBackOff b now draw).1.currentInterval ∧
    (NextBackOff b now draw).1.currentInterval ≤ 4503599627370496 ∧
    (b.currentInterval ≤ b.maxInterval →
      b.currentInterval ≤ (NextBackOff b now draw).1.currentInterval ∧
      (NextBackOff b now draw).1.currentInterval ≤ b.maxInterval) ∧
    (b.currentInterval = b.maxInterval →
      (NextBackOff b now draw).1.currentInterval = b.maxInterval) := by
  by_cases hx : b.startTime + b.maxElapsedTime < now
  · rw [NextBackOff_expired b now draw hx]
    exact ⟨hc0, hc, fun h => ⟨le_refl _, h⟩, fun h => h⟩
  · rw [NextBackOff_exact b now draw hc0 hc hM0 hM (not_lt.mp hx)]
    have hcq0 : (0 : ℚ) ≤ (b.currentInterval : ℚ) := by exact_mod_cast hc0
    have hMq0 : (0 : ℚ) < (b.maxInterval : ℚ) := by exact_mod_cast hM0
    split
    · refine ⟨le_of_lt hM0, hM, fun h => ⟨h, le_refl _⟩, fun _ => rfl⟩
    · rename_i hlt
      have hlt' : (b.currentInterval : ℚ) * multiplier < (b.maxInterval : ℚ) := by
        have := not_le.mp hlt
        unfold multiplier at this ⊢
        rw [lt_div_iff₀ (by norm_num)] at this
        exact this
      have hge : b.currentInterval ≤ ⌊(b.currentInterval : ℚ) * multiplier⌋ := by
        apply Int.le_floor.mpr
        unfold multiplier; linarith
      have hle : ⌊(b.currentInterval : ℚ) * multiplier⌋ ≤ b.maxInterval := by
        have : ((⌊(b.currentInterval : ℚ) * multiplier⌋ : Int) : ℚ) ≤ (b.maxInterval : ℚ) :=
          le_trans (Int.floor_le _) (le_of_lt hlt')
        exact_mod_cast this
      refine ⟨le_trans hc0 hge, le_trans hle hM, fun _ => ⟨hge, hle⟩, fun h => ?_⟩
      exfalso
      apply hlt
      rw [h]
      unfold multiplier
      rw [div_le_iff₀ (by norm_num)]
      linarith

theorem runCalls_interval_exact (calls : List (Instant × ℚ)) (b : ExponentialBackoff)
    (hc0 : 0 ≤ b.currentInterval) (hc : b.currentInterval ≤ 4503599627370496)
    (hM0 : 0 < b.maxInterval) (hM : b.maxInterval ≤ 4503599627370496) :
    0 ≤ (runCalls b calls).currentInterval ∧
    (runCalls b calls).currentInterval ≤ 4503599627370496 ∧
    (b.currentInterval ≤ b.maxInterval →
      (runCalls b calls).currentInterval ≤ b.maxInterval) ∧
    (b.currentInterval = b.maxInterval →
      (runCalls b calls).currentInterval = b.maxInterval) := by
  induction calls generalizing b with
  | nil => exact ⟨hc0, hc, fun h => h, fun h => h⟩
  | cons c cs ih =>
    obtain ⟨g1, g2, g3, g4⟩ := NextBackOff_interval_exact b c.1 c.2 hc0 hc hM0 hM
    obtain ⟨-, -, f3, -⟩ := NextBackOff_frame b c.1 c.2
    obtain ⟨i1, i2, i3, i4⟩ := ih (NextBackOff b c.1 c.2).1 g1 g2 (by rw [f3]; exact hM0)
      (by rw [f3]; exact hM)
    rw [f3] at i3 i4
    simp only [runCalls]
    exact ⟨i1, i2, fun h => i3 (g3 h).2, fun h => i4 (g4 h)⟩

end backoff

/-- C2, at the scenario of `TestMaxElapsedTime` (budget of one second): a call one
nanosecond after the budget returns `(false, 0)`, a call exactly at the budget returns true,
and a call after the expired one returns `(false, 0)`. -/
theorem backoff_budget_expiry_witness :
    (backoff.NextBackOff (backoff.NewExponentialBackOff 0 Second backoff.DefaultMaxInterval
      backoff.DefaultRandomizationFactor) (Second + 1) 0).2 = (false, 0) ∧
    (backoff.NextBackOff (backoff.NewExponentialBackOff 0 Second backoff.DefaultMaxInterval
      backoff.DefaultRandomizationFactor) Second 0).2.1 = true ∧
    (backoff.NextBackOff (backoff.NextBackOff (backoff.NewExponentialBackOff 0 Second
      backoff.DefaultMaxInterval backoff.DefaultRandomizationFactor) (Second + 1) 0).1
      (Second + 2) 0).2 = (false, 0) :=
  ⟨(backoff_budget_expiry 0 Second backoff.DefaultMaxInterval
      backoff.DefaultRandomizationFactor [] (Second + 1) 0).1 (by decide),
   (backoff_budget_expiry 0 Second backoff.DefaultMaxInterval
      backoff.DefaultRandomizationFactor [] Second 0).2.1 (by decide),
   (backoff_budget_expiry 0 Second backoff.DefaultMaxInterval
      backoff.DefaultRandomizationFactor [] (Second + 1) 0).2.2
      ((backoff_budget_expiry 0 Second backoff.DefaultMaxInterval
        backoff.DefaultRandomizationFactor [] (Second + 1) 0).1 (by decide) ▸ rfl)
      [] (Second + 2) 0 (by simp) (by decide)⟩

/-- C3, at the failing input `maxInterval = 10ms`, `randomizationFactor = 0.5`: the first
`NextBackOff` call (draw 0) returns a wait of 50 ms, which exceeds
`maxInterval * (1 + randomizationFactor) = 15ms`. -/
theorem wait_exceeds_max_when_maxInterval_below_initial :
    (backoff.NextBackOff (backoff.NewExponentialBackOff 0 Second (10 * Millisecond) (1 / 2))
      0 0).2 = (true, 50 * Millisecond) ∧
    ¬ (((50 * Millisecond : Duration) : ℚ) ≤ ((10 * Millisecond : Duration) : ℚ) * (1 + 1 / 2)) := by
  constructor
  · decide!
  · norm_num [Millisecond]

/-- C4 as stated fails three times.  With `maxInterval = 10ms` the first call lowers the
stored interval from 50 ms to 10 ms.  With `maxInterval = 5s` the stored interval after seven
calls is 854296875 ns, below `maxInterval / 1.5`, and the eighth call stores 1281445312 ns,
which is not `854296875 * 1.5 = 1281445312.5`.  With `maxInterval = 363145369886296800` ns
(above 50 ms) the stored interval after 55 calls is 242096913257531200 ns; call 56 stores
363145369886296832 ns, which is above `maxInterval`, and call 57 lowers the stored interval
to `maxInterval`. -/
theorem interval_growth_counterexample :
    ((backoff.NextBackOff (backoff.NewExponentialBackOff 0 Second (10 * Millisecond) (1 / 2))
        0 0).1.currentInterval
      < (backoff.NewExponentialBackOff 0 Second (10 * Millisecond) (1 / 2)).currentInterval) ∧
    ((backoff.runCalls (backoff.NewExponentialBackOff 0 Minute (5 * Second) (1 / 2))
        (List.replicate 7 (0, 0)))
        = { backoff.NewExponentialBackOff 0 Minute (5 * Second) (1 / 2) with
            currentInterval := 854296875 } ∧
     ((854296875 : Duration) : ℚ) < ((5 * Second : Duration) : ℚ) / backoff.multiplier ∧
     (backoff.NextBackOff
        { backoff.NewExponentialBackOff 0 Minute (5 * Second) (1 / 2) with
          currentInterval := 854296875 } 0 0).1.currentInterval = 1281445312 ∧
     ((1281445312 : Duration) : ℚ) ≠ ((854296875 : Duration) : ℚ) * backoff.multiplier) ∧
    (backoff.initialInterval ≤ 363145369886296800 ∧
     (backoff.runCalls (backoff.NewExponentialBackOff 0 Minute 363145369886296800 (1 / 2))
        (List.replicate 55 (0, 0)))
        = { backoff.NewExponentialBackOff 0 Minute 363145369886296800 (1 / 2) with
            currentInterval := 242096913257531200 } ∧
     (backoff.NextBackOff
        { backoff.NewExponentialBackOff 0 Minute 363145369886296800 (1 / 2) with
          currentInterval := 242096913257531200 } 0 0).1
        = { backoff.NewExponentialBackOff 0 Minute 363145369886296800 (1 / 2) with
            currentInterval := 363145369886296832 } ∧
     (363145369886296800 : Duration) < 363145369886296832 ∧
     (backoff.NextBackOff
        { backoff.NewExponentialBackOff 0 Minute 363145369886296800 (1 / 2) with
          currentInterval := 363145369886296832 } 0 0).1.currentInterval
        = 363145369886296800) := by
  refine ⟨?_, ⟨?_, ?_, ?_, ?_⟩, ⟨?_, ?_, ?_, ?_, ?_⟩⟩
  · decide!
  · decide!
  · norm_num [Second, Millisecond, backoff.multiplier]
  · decide!
  · norm_num [backoff.multiplier]
  · decide
  · decide!
  · decide!
  · decide
  · decide!

/-- C4, amended.  For every positive `maxInterval` up to `2 ^ 52` ns (about 52 days), on a
backoff from `NewExponentialBackOff` after any earlier calls: when `maxInterval` is at least
the initial interval (50 ms), a `NextBackOff` call never lowers the stored `currentInterval`;
a non-expired call replaces `currentInterval = f` by `f * 1.5` truncated to whole nanoseconds
while `f < maxInterval / 1.5`, and by `maxInterval` otherwise; and once `currentInterval`
equals `maxInterval` it equals `maxInterval` after every later sequence of calls. -/
theorem interval_growth (startTime : Instant) (maxElapsedTime maxInterval : Duration) (r : ℚ)
    (hpos : 0 < maxInterval) (hM : maxInterval ≤ 4503599627370496)
    (earlier : List (Instant × ℚ)) (now : Instant) (draw : ℚ) :
    (backoff.initialInterval ≤ maxInterval →
      (backoff.runCalls (backoff.NewExponentialBackOff startTime maxElapsedTime maxInterval r)
          earlier).currentInterval
        ≤ (backoff.NextBackOff (backoff.runCalls
            (backoff.NewExponentialBackOff startTime maxElapsedTime maxInterval r) earlier)
            now draw).1.currentInterval) ∧
    (now ≤ startTime + maxElapsedTime →
      (((backoff.runCalls (backoff.NewExponentialBackOff startTime maxElapsedTime maxInterval r)
          earlier).currentInterval : ℚ) < (maxInterval : ℚ) / backoff.multiplier →
        (backoff.NextBackOff (backoff.runCalls
          (backoff.NewExponentialBackOff startTime maxElapsedTime maxInterval r) earlier)
          now draw).1.currentInterval
        = ⌊((backoff.runCalls
            (backoff.NewExponentialBackOff startTime maxElapsedTime maxInterval r)
            earlier).currentInterval : ℚ) * backoff.multiplier⌋) ∧
      ((maxInterval : ℚ) / backoff.multiplier ≤ ((backoff.runCalls
          (backoff.NewExponentialBackOff startTime maxElapsedTime maxInterval r)
          earlier).currentInterval : ℚ) →
        (backoff.NextBackOff (backoff.runCalls
          (backoff.NewExponentialBackOff startTime maxElapsedTime maxInterval r) earlier)
          now draw).1.currentInterval = maxInterval)) ∧
    ((backoff.runCalls (backoff.NewExponentialBackOff startTime maxElapsedTime maxInterval r)
        earlier).currentInterval = maxInterval →
      ∀ later : List (Instant × ℚ),
        (backoff.runCalls (backoff.runCalls
          (backoff.NewExponentialBackOff startTime maxElapsedTime maxInterval r) earlier)
          later).currentInterval = maxInterval) := by
  obtain ⟨f1, f2, f3, -⟩ := backoff.runCalls_frame earlier
    (backoff.NewExponentialBackOff startTime maxElapsedTime maxInterval r)
  have f1' : (backoff.runCalls (backoff.NewExponentialBackOff startTime maxElapsedTime
      maxInterval r) earlier).startTime = startTime := f1
  have f2' : (backoff.runCalls (backoff.NewExponentialBackOff startTime maxElapsedTime
      maxInterval r) earlier).maxElapsedTime = maxElapsedTime := f2
  have f3' : (backoff.runCalls (backoff.NewExponentialBackOff startTime maxElapsedTime
      maxInterval r) earlier).maxInterval = maxInterval := f3
  obtain ⟨g1, g2, g3, -⟩ := backoff.runCalls_interval_exact earlier
    (backoff.NewExponentialBackOff startTime maxElapsedTime maxInterval r)
    backoff.initialInterval_nonneg
    (show backoff.initialInterval ≤ 4503599627370496 by decide) hpos hM
  have hM' : (backoff.runCalls (backoff.NewExponentialBackOff startTime maxElapsedTime
      maxInterval r) earlier).maxInterval ≤ 4503599627370496 := by rw [f3']; exact hM
  have hpos' : 0 < (backoff.runCalls (backoff.NewExponentialBackOff startTime maxElapsedTime
      maxInterval r) earlier).maxInterval := by rw [f3']; exact hpos
  refine ⟨fun hmax => ?_, fun hne => ⟨fun hlt => ?_, fun hge => ?_⟩, fun heq later => ?_⟩
  · exact ((backoff.NextBackOff_interval_exact _ now draw g1 g2 hpos' hM').2.2.1
      (by rw [f3']; exact g3 hmax)).1
  · rw [backoff.NextBackOff_exact _ now draw g1 g2 hpos' hM' (by rw [f1', f2']; exact hne), f3',
      if_neg (not_le.mpr hlt)]
  · rw [backoff.NextBackOff_exact _ now draw g1 g2 hpos' hM' (by rw [f1', f2']; exact hne), f3',
      if_pos hge]
  · rw [(backoff.runCalls_interval_exact later _ g1 g2 hpos' hM').2.2.2
      (by rw [f3']; exact heq), f3']

/-- C4 amended, at `maxInterval = 100ms` (the setting of `TestBackoffOverFlow`): the first
call raises the stored interval from 50 ms to `50ms * 1.5`, which is 75 ms. -/
theorem interval_growth_witness :
    (backoff.NewExponentialBackOff 0 Second (100 * Millisecond) (1 / 2)).currentInterval
      ≤ (backoff.NextBackOff (backoff.NewExponentialBackOff 0 Second (100 * Millisecond)
          (1 / 2)) 0 0).1.currentInterval ∧
    (backoff.NextBackOff (backoff.NewExponentialBackOff 0 Second (100 * Millisecond)
      (1 / 2)) 0 0).1.currentInterval
      = ⌊((backoff.NewExponentialBackOff 0 Second (100 * Millisecond)
          (1 / 2)).currentInterval : ℚ) * backoff.multiplier⌋ ∧
    (backoff.NextBackOff (backoff.NewExponentialBackOff 0 Second (100 * Millisecond)
      (1 / 2)) 0 0).1.currentInterval = 75 * Millisecond :=
  ⟨(interval_growth 0 Second (100 * Millisecond) (1 / 2) (by decide) (by decide) [] 0 0).1
      (by decide),
   ((interval_growth 0 Second (100 * Millisecond) (1 / 2) (by decide) (by decide) [] 0 0).2.1
      (by decide)).1
      (by norm_num [backoff.runCalls, backoff.NewExponentialBackOff, backoff.initialInterval,
        backoff.multiplier, Millisecond]),
   by decide!⟩

/-- C5 as stated fails above `2 ^ 53` ns.  The backoff from
`NewExponentialBackOff(1s, 2^53 + 1 ns, 0)` stores `currentInterval = 2^53 + 1` after 47
calls; the next call converts it to `float64`, which rounds it to `2^53`, and returns the
wait `2^53`, below the stored interval. -/
theorem wait_ge_current_interval_counterexample :
    (backoff.runCalls (backoff.NewExponentialBackOff 0 Second 9007199254740993 0)
        (List.replicate 47 (0, 0)))
      = { backoff.NewExponentialBackOff 0 Second 9007199254740993 0 with
          currentInterval := 9007199254740993 } ∧
    (backoff.NextBackOff
        { backoff.NewExponentialBackOff 0 Second 9007199254740993 0 with
          currentInterval := 9007199254740993 } 0 0).2 = (true, 9007199254740992) ∧
    (9007199254740992 : Duration) < 9007199254740993 := by
  refine ⟨?_, ?_, ?_⟩
  · decide!
  · decide!
  · decide

/-- C5, amended.  For every backoff state with `currentInterval` between 0 and `2 ^ 53` ns
(about 104 days), every `randomizationFactor` in `[0, 1]` and every draw in `[0, 1)`, a
non-expired `NextBackOff` call returns true with a wait that is at least the
`currentInterval` stored before the call. -/
theorem wait_ge_current_interval (b : backoff.ExponentialBackoff) (now : Instant) (draw : ℚ)
    (hc : 0 ≤ b.currentInterval) (hc53 : b.currentInterval ≤ 9007199254740992)
    (hr0 : 0 ≤ b.randomizationFactor) (hr1 : b.randomizationFactor ≤ 1)
    (hd0 : 0 ≤ draw) (hd1 : draw < 1)
    (hne : now ≤ b.startTime + b.maxElapsedTime) :
    (backoff.NextBackOff b now draw).2.1 = true ∧
    b.currentInterval ≤ (backoff.NextBackOff b now draw).2.2 := by
  constructor
  · rw [backoff.NextBackOff_hasNext]
    exact decide_eq_true hne
  · rw [backoff.NextBackOff_duration b now draw hne]
    have h53 : b.currentInterval ≤ 2 ^ 53 := le_trans hc53 (by norm_num)
    rw [round64_intCast b.currentInterval hc h53]
    obtain ⟨hB0, hB1⟩ := backoff.jitter_bounds draw b.randomizationFactor hd0 hd1 hr0 hr1
    have hcq0 : (0 : ℚ) ≤ (b.currentInterval : ℚ) := by exact_mod_cast hc
    have hcq : (b.currentInterval : ℚ) ≤ 9007199254740992 := by exact_mod_cast hc53
    have hP0 : (b.currentInterval : ℚ)
        ≤ (b.currentInterval : ℚ) * round64 (1 + round64 (draw * b.randomizationFactor)) := by
      nlinarith
    have hP1 : (b.currentInterval : ℚ) * round64 (1 + round64 (draw * b.randomizationFactor))
        ≤ 18014398509481984 := by nlinarith
    have hW0 := le_round64 b.currentInterval hc h53 _ hP0
    have hW1 := backoff.round64_upper _ (le_trans hcq0 hP0)
    rw [toDuration_of_range (le_trans hcq0 hW0) (by linarith)]
    exact Int.le_floor.mpr hW0

/-- C5 amended, at a fresh backoff with `randomizationFactor = 0.5` and draw `0.5`: the
first wait, 62.5 ms, is at least the initial 50 ms. -/
theorem wait_ge_current_interval_witness :
    (backoff.NextBackOff (backoff.NewExponentialBackOff 0 Second (100 * Millisecond) (1 / 2))
      0 (1 / 2)).2 = (true, 62500000) ∧
    (backoff.NewExponentialBackOff 0 Second (100 * Millisecond) (1 / 2)).currentInterval
      ≤ (backoff.NextBackOff (backoff.NewExponentialBackOff 0 Second (100 * Millisecond)
          (1 / 2)) 0 (1 / 2)).2.2 :=
  ⟨by decide!,
   (wait_ge_current_interval
      (backoff.NewExponentialBackOff 0 Second (100 * Millisecond) (1 / 2))
      0 (1 / 2) (by decide) (by decide) (by norm_num [backoff.NewExponentialBackOff])
      (by norm_num [backoff.NewExponentialBackOff]) (by norm_num) (by norm_num)
      (by decide)).2⟩

/-! ## Termination of the sleep loop -/

namespace backoff

/-- The growth values, evaluated: the first 63 lie between the initial interval and
`4136452728861101056` ns, the first 62 round to at most `2757635152574067200`, and sleeping
the first 63 takes at least `2 ^ 63` ns. -/
theorem growth_tables :
    (∀ k, k < 63 → initialInterval ≤ growth k ∧ growth k ≤ 4136452728861101056) ∧
    (∀ j, j < 62 → round64 (growth j : ℚ) ≤ 2757635152574067200) ∧
    9223372036854775808 ≤ growthSlept 63 := by
  decide!

/-- A non-expired call on an interval between 1 ns and `4.14e18` ns returns a wait of at least
1 ns that is short of the interval by at most 2049 ns. -/
theorem NextBackOff_wait_progress (b : ExponentialBackoff) (now : Instant) (draw : ℚ)
    (hc1 : 1 ≤ b.currentInterval) (hcU : b.currentInterval ≤ 4140000000000000000)
    (hr0 : 0 ≤ b.randomizationFactor) (hr1 : b.randomizationFactor ≤ 1)
    (hd0 : 0 ≤ draw) (hd1 : draw < 1) (hne : now ≤ b.startTime + b.maxElapsedTime) :
    1 ≤ (NextBackOff b now draw).2.2 ∧
    b.currentInterval - 2049 ≤ (NextBackOff b now draw).2.2 := by
  rw [NextBackOff_duration b now draw hne]
  obtain ⟨hB0, hB1⟩ := jitter_bounds draw b.randomizationFactor hd0 hd1 hr0 hr1
  have hcq1 : (1 : ℚ) ≤ (b.currentInterval : ℚ) := by exact_mod_cast hc1
  have hcqU : (b.currentInterval : ℚ) ≤ 4140000000000000000 := by exact_mod_cast hcU
  have hf1 : ((1 : Int) : ℚ) ≤ round64 (b.currentInterval : ℚ) :=
    le_round64 1 (by norm_num) (by norm_num) _ (by push_cast; exact hcq1)
  push_cast at hf1
  have hfe := round64_error_rel (b.currentInterval : ℚ) (by linarith)
  rw [abs_le] at hfe
  obtain ⟨hfe1, hfe2⟩ := hfe
  have hP0 : round64 (b.currentInterval : ℚ)
      ≤ round64 (b.currentInterval : ℚ)
        * round64 (1 + round64 (draw * b.randomizationFactor)) := by nlinarith
  have hP1 : round64 (b.currentInterval : ℚ)
        * round64 (1 + round64 (draw * b.randomizationFactor))
      ≤ 2 * round64 (b.currentInterval : ℚ) := by nlinarith
  have hW1 : ((1 : Int) : ℚ) ≤ round64 (round64 (b.currentInterval : ℚ)
      * round64 (1 + round64 (draw * b.randomizationFactor))) :=
    le_round64 1 (by norm_num) (by norm_num) _ (by push_cast; linarith)
  push_cast at hW1
  have hWe := round64_error_rel (round64 (b.currentInterval : ℚ)
      * round64 (1 + round64 (draw * b.randomizationFactor))) (by linarith)
  rw [abs_le] at hWe
  obtain ⟨hWe1, hWe2⟩ := hWe
  have hW0 : (0 : ℚ) ≤ round64 (round64 (b.currentInterval : ℚ)
      * round64 (1 + round64 (draw * b.randomizationFactor))) := by linarith
  have hWU : round64 (round64 (b.currentInterval : ℚ)
      * round64 (1 + round64 (draw * b.randomizationFactor))) ≤ 9223372036854775807 := by
    linarith
  rw [toDuration_of_range hW0 hWU]
  constructor
  · exact Int.le_floor.mpr (by push_cast; exact hW1)
  · apply Int.le_floor.mpr
    push_cast
    linarith

/-- A call on a backoff whose stored interval is `maxInterval` keeps it there. -/
theorem NextBackOff_stays_clamped (b : ExponentialBackoff) (now : Instant) (draw : ℚ)
    (hM : 1 ≤ b.maxInterval) (hc : b.currentInterval = b.maxInterval) :
    (NextBackOff b now draw).1.currentInterval = b.maxInterval := by
  by_cases hx : b.startTime + b.maxElapsedTime < now
  · rw [NextBackOff_expired b now draw hx]; exact hc
  · rw [NextBackOff_currentInterval b now draw (not_lt.mp hx), hc, if_pos]
    have hMq : (1 : ℚ) ≤ (b.maxInterval : ℚ) := by exact_mod_cast hM
    have hf1 : ((1 : Int) : ℚ) ≤ round64 (b.maxInterval : ℚ) :=
      le_round64 1 (by norm_num) (by norm_num) _ (by push_cast; exact hMq)
    push_cast at hf1
    have hx12 : 1 / 2 ≤ round64 (b.maxInterval : ℚ) / multiplier := by
      unfold multiplier
      rw [le_div_iff₀ (by norm_num)]
      linarith
    have he := round64_error_rel _ hx12
    rw [abs_le] at he
    unfold multiplier at he ⊢
    have : round64 (b.maxInterval : ℚ) / (3 / 2) = round64 (b.maxInterval : ℚ) * (2 / 3) := by
      ring
    rw [this] at he ⊢
    linarith [he.2]

/-- When the clamp test succeeds against a rounded interval of at most `2757635152574067200`,
`maxInterval` is at most `4.14e18`. -/
theorem maxInterval_le_of_clamped (M : Int) (g : ℚ)
    (hg : g ≤ 2757635152574067200) (h : round64 (round64 (M : ℚ) / multiplier) ≤ g) :
    M ≤ 4140000000000000000 := by
  by_contra hlt
  have hlt : (4140000000000000000 : Int) < M := not_le.mp hlt
  have hMq : (4140000000000000000 : ℚ) < (M : ℚ) := by exact_mod_cast hlt
  have he1 := round64_error_rel (M : ℚ) (by linarith)
  rw [abs_le] at he1
  have hx12 : 1 / 2 ≤ round64 (M : ℚ) / multiplier := by
    unfold multiplier
    rw [le_div_iff₀ (by norm_num)]
    linarith [he1.1]
  have he2 := round64_error_rel _ hx12
  rw [abs_le] at he2
  unfold multiplier at he2 h
  have : round64 (M : ℚ) / (3 / 2) = round64 (M : ℚ) * (2 / 3) := by ring
  rw [this] at he2 h
  linarith [he1.1, he2.1]

theorem loopState_frame (draws : Nat → ℚ) (latency : Nat → Nat) (firstCall : Instant)
    (b : ExponentialBackoff) (k : Nat) :
    (loopState draws latency firstCall b k).2.startTime = b.startTime ∧
    (loopState draws latency firstCall b k).2.maxElapsedTime = b.maxElapsedTime ∧
    (loopState draws latency firstCall b k).2.maxInterval = b.maxInterval ∧
    (loopState draws latency firstCall b k).2.randomizationFactor = b.randomizationFactor := by
  induction k with
  | zero => exact ⟨rfl, rfl, rfl, rfl⟩
  | succ k ih =>
    obtain ⟨h1, h2, h3, h4⟩ := ih
    obtain ⟨g1, g2, g3, g4⟩ := NextBackOff_frame (loopState draws latency firstCall b k).2
      (loopState draws latency firstCall b k).1 (draws k)
    simp only [loopState]
    exact ⟨g1.trans h1, g2.trans h2, g3.trans h3, g4.trans h4⟩

/-- The invariant of the sleep loop, as long as no call has expired: the clock has advanced
by at least one nanosecond per call, and the stored interval is either a growth value reached
after sleeping the earlier ones, or `maxInterval` reached after sleeping up to the clamp. -/
theorem loopState_invariant (startTime : Instant) (maxElapsedTime maxInterval : Duration)
    (r : ℚ) (draws : Nat → ℚ) (latency : Nat → Nat) (firstCall : Instant)
    (hE : maxElapsedTime ≤ MaxInt64) (hmax : 0 < maxInterval) (hr0 : 0 ≤ r) (hr1 : r ≤ 1)
    (hd : ∀ k, 0 ≤ draws k ∧ draws k < 1) (hfirst : startTime ≤ firstCall) (i : Nat) :
    (∀ j, j < i → (loopState draws latency firstCall
        (NewExponentialBackOff startTime maxElapsedTime maxInterval r) j).1
      ≤ startTime + maxElapsedTime) →
    firstCall + (i : Int) ≤ (loopState draws latency firstCall
        (NewExponentialBackOff startTime maxElapsedTime maxInterval r) i).1 ∧
    ((i ≤ 63 ∧
        (loopState draws latency firstCall
          (NewExponentialBackOff startTime maxElapsedTime maxInterval r) i).2.currentInterval
          = growth i ∧
        startTime + growthSlept i ≤ (loopState draws latency firstCall
          (NewExponentialBackOff startTime maxElapsedTime maxInterval r) i).1) ∨
     ((loopState draws latency firstCall
          (NewExponentialBackOff startTime maxElapsedTime maxInterval r) i).2.currentInterval
          = maxInterval ∧
        ∃ j, j ≤ 62 ∧
          round64 (round64 (maxInterval : ℚ) / multiplier) ≤ round64 (growth j : ℚ) ∧
          startTime + growthSlept (j + 1) ≤ (loopState draws latency firstCall
            (NewExponentialBackOff startTime maxElapsedTime maxInterval r) i).1)) := by
  induction i with
  | zero =>
    intro _
    refine ⟨by simp [loopState], Or.inl ⟨by omega, rfl, ?_⟩⟩
    simp only [loopState, growthSlept, add_zero]
    exact hfirst
  | succ i ih =>
    intro hall
    obtain ⟨hclock, hinv⟩ := ih (fun j hj => hall j (by omega))
    have hne := hall i (by omega)
    obtain ⟨f1, f2, f3, f4⟩ := loopState_frame draws latency firstCall
      (NewExponentialBackOff startTime maxElapsedTime maxInterval r) i
    have f1' : (loopState draws latency firstCall
        (NewExponentialBackOff startTime maxElapsedTime maxInterval r) i).2.startTime
        = startTime := f1
    have f2' : (loopState draws latency firstCall
        (NewExponentialBackOff startTime maxElapsedTime maxInterval r) i).2.maxElapsedTime
        = maxElapsedTime := f2
    have f3' : (loopState draws latency firstCall
        (NewExponentialBackOff startTime maxElapsedTime maxInterval r) i).2.maxInterval
        = maxInterval := f3
    have f4' : (loopState draws latency firstCall
        (NewExponentialBackOff startTime maxElapsedTime maxInterval r) i).2.randomizationFactor
        = r := f4
    have hne' : (loopState draws latency firstCall
        (NewExponentialBackOff startTime maxElapsedTime maxInterval r) i).1
        ≤ (loopState draws latency firstCall
          (NewExponentialBackOff startTime maxElapsedTime maxInterval r) i).2.startTime
        + (loopState draws latency firstCall
          (NewExponentialBackOff startTime maxElapsedTime maxInterval r) i).2.maxElapsedTime := by
      rw [f1', f2']; exact hne
    have hbudget : (loopState draws latency firstCall
        (NewExponentialBackOff startTime maxElapsedTime maxInterval r) i).1
        ≤ startTime + 9223372036854775807 := by
      have : maxElapsedTime ≤ 9223372036854775807 := hE
      linarith
    have hlat : (0 : Int) ≤ (latency i : Int) := Int.natCast_nonneg _
    have hmaxw : ∀ w : Int, w ≤ max w 0 := fun w => le_max_left _ _
    have hs63 := growth_tables.2.2
    rcases hinv with ⟨hi63, hcur, hslept⟩ | ⟨hcur, j, hj, hT, hslept⟩
    · have hi : i < 63 := by
        rcases Nat.lt_or_ge i 63 with h | h
        · exact h
        · have : i = 63 := by omega
          subst this
          exfalso
          linarith
      obtain ⟨hg1, hg2⟩ := growth_tables.1 i hi
      have hg0 : (1 : Int) ≤ growth i := le_trans initialInterval_pos hg1
      obtain ⟨hw1, hw2⟩ := NextBackOff_wait_progress (loopState draws latency firstCall
        (NewExponentialBackOff startTime maxElapsedTime maxInterval r) i).2
        (loopState draws latency firstCall
          (NewExponentialBackOff startTime maxElapsedTime maxInterval r) i).1 (draws i)
        (by rw [hcur]; exact hg0) (by rw [hcur]; linarith)
        (by rw [f4']; exact hr0) (by rw [f4']; exact hr1) (hd i).1 (hd i).2 hne'
      rw [hcur] at hw2
      have hcI := NextBackOff_currentInterval (loopState draws latency firstCall
        (NewExponentialBackOff startTime maxElapsedTime maxInterval r) i).2
        (loopState draws latency firstCall
          (NewExponentialBackOff startTime maxElapsedTime maxInterval r) i).1 (draws i) hne'
      rw [f3', hcur] at hcI
      have hw := hmaxw (NextBackOff (loopState draws latency firstCall
        (NewExponentialBackOff startTime maxElapsedTime maxInterval r) i).2
        (loopState draws latency firstCall
          (NewExponentialBackOff startTime maxElapsedTime maxInterval r) i).1 (draws i)).2.2
      simp only [loopState]
      refine ⟨by push_cast; linarith, ?_⟩
      by_cases hclamp : round64 (round64 (maxInterval : ℚ) / multiplier)
          ≤ round64 (growth i : ℚ)
      · rw [if_pos hclamp] at hcI
        refine Or.inr ⟨hcI, i, by omega, hclamp, ?_⟩
        simp only [growthSlept]
        linarith
      · rw [if_neg hclamp] at hcI
        refine Or.inl ⟨by omega, hcI, ?_⟩
        simp only [growthSlept]
        linarith
    · have hj61 : j < 62 := by
        rcases Nat.lt_or_ge j 62 with h | h
        · exact h
        · have : j = 62 := by omega
          subst this
          exfalso
          linarith
      have hM := maxInterval_le_of_clamped maxInterval _ (growth_tables.2.1 j hj61) hT
      obtain ⟨hw1, -⟩ := NextBackOff_wait_progress (loopState draws latency firstCall
        (NewExponentialBackOff startTime maxElapsedTime maxInterval r) i).2
        (loopState draws latency firstCall
          (NewExponentialBackOff startTime maxElapsedTime maxInterval r) i).1 (draws i)
        (by rw [hcur]; exact hmax) (by rw [hcur]; exact hM)
        (by rw [f4']; exact hr0) (by rw [f4']; exact hr1) (hd i).1 (hd i).2 hne'
      have hstay := NextBackOff_stays_clamped (loopState draws latency firstCall
        (NewExponentialBackOff startTime maxElapsedTime maxInterval r) i).2
        (loopState draws latency firstCall
          (NewExponentialBackOff startTime maxElapsedTime maxInterval r) i).1 (draws i)
        (by rw [f3']; exact hmax) (by rw [f3']; exact hcur)
      rw [f3'] at hstay
      have hw := hmaxw (NextBackOff (loopState draws latency firstCall
        (NewExponentialBackOff startTime maxElapsedTime maxInterval r) i).2
        (loopState draws latency firstCall
          (NewExponentialBackOff startTime maxElapsedTime maxInterval r) i).1 (draws i)).2.2
      simp only [loopState]
      refine ⟨by push_cast; linarith, Or.inr ⟨hstay, j, hj, hT, ?_⟩⟩
      linarith

/-- The sleep loop returns at the first call that finds the budget spent. -/
theorem sleepLoop_of_loopState (draws : Nat → ℚ) (latency : Nat → Nat) (firstCall : Instant)
    (b : ExponentialBackoff) (n : Nat)
    (hall : ∀ k, k < n → (NextBackOff (loopState draws latency firstCall b k).2
      (loopState draws latency firstCall b k).1 (draws k)).2.1 = true)
    (hn : (NextBackOff (loopState draws latency firstCall b n).2
      (loopState draws latency firstCall b n).1 (draws n)).2.1 = false) (d : Nat) :
    ∀ i, i + d = n → ∀ fuel, d < fuel →
      sleepLoop draws latency fuel i (loopState draws latency firstCall b i).1
        (loopState draws latency firstCall b i).2
        = some (n + 1, (loopState draws latency firstCall b n).1) := by
  induction d with
  | zero =>
    intro i hi fuel hf
    have : i = n := by omega
    subst this
    obtain ⟨f, rfl⟩ : ∃ f, fuel = f + 1 := ⟨fuel - 1, by omega⟩
    simp [sleepLoop, hn]
  | succ d ih =>
    intro i hi fuel hf
    obtain ⟨f, rfl⟩ : ∃ f, fuel = f + 1 := ⟨fuel - 1, by omega⟩
    have h := hall i (by omega)
    have := ih (i + 1) (by omega) f (by omega)
    simp only [sleepLoop, h, if_true]
    exact this

end backoff

/-- C10. For every `maxElapsedTime` (a `time.Duration`, so at most `math.MaxInt64`), every
positive `maxInterval`, every `randomizationFactor` in `[0, 1]` and all draws in `[0, 1)`,
under a clock that never goes backwards (the first call is not before the creation, and
between two calls the clock moves forward by at least the returned wait), the loop that calls
`NextBackOff` on a backoff from `NewExponentialBackOff` and sleeps the returned duration
terminates: there is a call `n` such that every earlier call returned true, call `n` returned
`(false, 0)`, call `n` was made strictly after `startTime + maxElapsedTime`, and with more
than `n` units of fuel the loop returns after `n + 1` calls at the instant of call `n`. -/
theorem sleepLoop_terminates (startTime : Instant) (maxElapsedTime maxInterval : Duration)
    (r : ℚ) (draws : Nat → ℚ) (latency : Nat → Nat) (firstCall : Instant)
    (hE : maxElapsedTime ≤ MaxInt64) (hmax : 0 < maxInterval) (hr0 : 0 ≤ r) (hr1 : r ≤ 1)
    (hd : ∀ k, 0 ≤ draws k ∧ draws k < 1) (hfirst : startTime ≤ firstCall) :
    ∃ n,
      (∀ k, k < n →
        (backoff.NextBackOff
          (backoff.loopState draws latency firstCall
            (backoff.NewExponentialBackOff startTime maxElapsedTime maxInterval r) k).2
          (backoff.loopState draws latency firstCall
            (backoff.NewExponentialBackOff startTime maxElapsedTime maxInterval r) k).1
          (draws k)).2.1 = true) ∧
      (backoff.NextBackOff
        (backoff.loopState draws latency firstCall
          (backoff.NewExponentialBackOff startTime maxElapsedTime maxInterval r) n).2
        (backoff.loopState draws latency firstCall
          (backoff.NewExponentialBackOff startTime maxElapsedTime maxInterval r) n).1
        (draws n)).2 = (false, 0) ∧
      startTime + maxElapsedTime
        < (backoff.loopState draws latency firstCall
          (backoff.NewExponentialBackOff startTime maxElapsedTime maxInterval r) n).1 ∧
      ∀ fuel, n < fuel →
        backoff.sleepLoop draws latency fuel 0 firstCall
          (backoff.NewExponentialBackOff startTime maxElapsedTime maxInterval r)
          = some (n + 1,
              (backoff.loopState draws latency firstCall
                (backoff.NewExponentialBackOff startTime maxElapsedTime maxInterval r) n).1) := by
  have hex : ∃ n, startTime + maxElapsedTime
      < (backoff.loopState draws latency firstCall
          (backoff.NewExponentialBackOff startTime maxElapsedTime maxInterval r) n).1 := by
    by_contra hno
    have hall : ∀ n, (backoff.loopState draws latency firstCall
        (backoff.NewExponentialBackOff startTime maxElapsedTime maxInterval r) n).1
        ≤ startTime + maxElapsedTime := fun n => not_lt.mp (fun h => hno ⟨n, h⟩)
    have h := (backoff.loopState_invariant startTime maxElapsedTime maxInterval r draws latency
      firstCall hE hmax hr0 hr1 hd hfirst
      ((startTime + maxElapsedTime - firstCall).toNat + 1) (fun j _ => hall j)).1
    have h2 := hall ((startTime + maxElapsedTime - firstCall).toNat + 1)
    have h3 : startTime + maxElapsedTime - firstCall
        ≤ ((startTime + maxElapsedTime - firstCall).toNat : Int) := Int.self_le_toNat _
    push_cast at h
    linarith
  classical
  refine ⟨Nat.find hex, ?_, ?_, Nat.find_spec hex, ?_⟩
  · intro k hk
    have := Nat.find_min hex hk
    rw [backoff.NextBackOff_hasNext, (backoff.loopState_frame _ _ _ _ k).1,
      (backoff.loopState_frame _ _ _ _ k).2.1]
    exact decide_eq_true (not_lt.mp this)
  · rw [backoff.NextBackOff_expired _ _ _ (by
      rw [(backoff.loopState_frame _ _ _ _ _).1, (backoff.loopState_frame _ _ _ _ _).2.1]
      exact Nat.find_spec hex)]
  · intro fuel hf
    have hall : ∀ k, k < Nat.find hex →
        (backoff.NextBackOff
          (backoff.loopState draws latency firstCall
            (backoff.NewExponentialBackOff startTime maxElapsedTime maxInterval r) k).2
          (backoff.loopState draws latency firstCall
            (backoff.NewExponentialBackOff startTime maxElapsedTime maxInterval r) k).1
          (draws k)).2.1 = true := by
      intro k hk
      have := Nat.find_min hex hk
      rw [backoff.NextBackOff_hasNext, (backoff.loopState_frame _ _ _ _ k).1,
        (backoff.loopState_frame _ _ _ _ k).2.1]
      exact decide_eq_true (not_lt.mp this)
    have hn : (backoff.NextBackOff
        (backoff.loopState draws latency firstCall
          (backoff.NewExponentialBackOff startTime maxElapsedTime maxInterval r)
          (Nat.find hex)).2
        (backoff.loopState draws latency firstCall
          (backoff.NewExponentialBackOff startTime maxElapsedTime maxInterval r)
          (Nat.find hex)).1
        (draws (Nat.find hex))).2.1 = false := by
      rw [backoff.NextBackOff_hasNext, (backoff.loopState_frame _ _ _ _ _).1,
        (backoff.loopState_frame _ _ _ _ _).2.1]
      exact decide_eq_false (not_le.mpr (Nat.find_spec hex))
    exact backoff.sleepLoop_of_loopState draws latency firstCall _ (Nat.find hex) hall hn
      (Nat.find hex) 0 (by omega) fuel hf

/-- C10, at the scenario `maxElapsedTime = 1s`, `maxInterval = 100ms`,
`randomizationFactor = 0.5` (all draws 0, no extra latency, first call at the creation): the
loop terminates; it makes 12 calls, the waits being 50 ms, 75 ms and then 100 ms, and the
twelfth call, at 1025 ms, is the one that returns false. -/
theorem sleepLoop_terminates_witness :
    (∃ n,
      (∀ k, k < n →
        (backoff.NextBackOff
          (backoff.loopState (fun _ => 0) (fun _ => 0) 0
            (backoff.NewExponentialBackOff 0 Second (100 * Millisecond) (1 / 2)) k).2
          (backoff.loopState (fun _ => 0) (fun _ => 0) 0
            (backoff.NewExponentialBackOff 0 Second (100 * Millisecond) (1 / 2)) k).1
          0).2.1 = true) ∧
      (backoff.NextBackOff
        (backoff.loopState (fun _ => 0) (fun _ => 0) 0
          (backoff.NewExponentialBackOff 0 Second (100 * Millisecond) (1 / 2)) n).2
        (backoff.loopState (fun _ => 0) (fun _ => 0) 0
          (backoff.NewExponentialBackOff 0 Second (100 * Millisecond) (1 / 2)) n).1
        0).2 = (false, 0) ∧
      0 + Second
        < (backoff.loopState (fun _ => 0) (fun _ => 0) 0
          (backoff.NewExponentialBackOff 0 Second (100 * Millisecond) (1 / 2)) n).1 ∧
      ∀ fuel, n < fuel →
        backoff.sleepLoop (fun _ => 0) (fun _ => 0) fuel 0 0
          (backoff.NewExponentialBackOff 0 Second (100 * Millisecond) (1 / 2))
          = some (n + 1,
              (backoff.loopState (fun _ => 0) (fun _ => 0) 0
                (backoff.NewExponentialBackOff 0 Second (100 * Millisecond) (1 / 2)) n).1)) ∧
    backoff.sleepLoop (fun _ => 0) (fun _ => 0) 12 0 0
        (backoff.NewExponentialBackOff 0 Second (100 * Millisecond) (1 / 2))
      = some (12, 1025000000) ∧
    backoff.sleepLoop (fun _ => 0) (fun _ => 0) 11 0 0
        (backoff.NewExponentialBackOff 0 Second (100 * Millisecond) (1 / 2))
      = none :=
  ⟨sleepLoop_terminates 0 Second (100 * Millisecond) (1 / 2) (fun _ => 0) (fun _ => 0) 0
      (by decide) (by decide) (by norm_num) (by norm_num)
      (fun _ => ⟨le_refl _, by norm_num⟩) (le_refl _),
   by decide!, by decide!⟩

/-! ## The retry loop -/

namespace gentlemanretry

theorem transportCalls_append (a b : List Event) :
    transportCalls (a ++ b) = transportCalls a ++ transportCalls b := by
  simp [transportCalls]

theorem evaluatorCalls_append (a b : List Event) :
    evaluatorCalls (a ++ b) = evaluatorCalls a + evaluatorCalls b := by
  simp [evaluatorCalls]

theorem backoffCalls_append (a b : List Event) :
    backoffCalls (a ++ b) = backoffCalls a + backoffCalls b := by
  simp [backoffCalls]

theorem releaseResponse_calls (t : transport) (env : Env) (req : Request)
    (res : Option Response) (err : Option Error) :
    transportCalls (releaseResponse t env req res err).2 = [] ∧
    evaluatorCalls (releaseResponse t env req res err).2 = 0 ∧
    backoffCalls (releaseResponse t env req res err).2 = 0 := by
  unfold releaseResponse
  cases res with
  | none => simp [transportCalls, evaluatorCalls, backoffCalls]
  | some rs =>
    cases t.logRequest <;> cases t.logResponse <;>
      simp [transportCalls, evaluatorCalls, backoffCalls, Event.asRoundTrip, Event.isEvaluate,
        Event.isNextBackOff]

theorem withTimeout_calls (c : Bool) (d : Duration) (tr : List Event) :
    transportCalls (if c then tr ++ [Event.withTimeout d] else tr) = transportCalls tr ∧
    evaluatorCalls (if c then tr ++ [Event.withTimeout d] else tr) = evaluatorCalls tr ∧
    backoffCalls (if c then tr ++ [Event.withTimeout d] else tr) = backoffCalls tr := by
  cases c <;>
    simp [transportCalls, evaluatorCalls, backoffCalls, Event.asRoundTrip, Event.isEvaluate,
      Event.isNextBackOff]

theorem iteration_next {t : transport} {env : Env} {origCtx : Context} {body : Option Bytes}
    {resetTimeout : Bool} {s s' : LoopState}
    (h : iteration t env origCtx body resetTimeout s = Step.next s') :
    s'.retryCount = s.retryCount + 1 ∧
    transportCalls s'.trace
      = transportCalls s.trace ++ [attemptRequest t origCtx body resetTimeout s.req] ∧
    evaluatorCalls s'.trace = evaluatorCalls s.trace + 1 ∧
    backoffCalls s'.trace = backoffCalls s.trace + 1 := by
  unfold iteration at h
  obtain ⟨w1, w2, w3⟩ := withTimeout_calls resetTimeout t.requestTimeout s.trace
  dsimp only at h
  split at h
  · exact absurd h (by simp)
  · exact absurd h (by simp)
  · rename_i err hev
    obtain ⟨r1, r2, r3⟩ := releaseResponse_calls t env
      (afterRoundTrip (t.transport s.retryCount
        (attemptRequest t origCtx body resetTimeout s.req)).consumed
        (attemptRequest t origCtx body resetTimeout s.req))
      (t.transport s.retryCount (attemptRequest t origCtx body resetTimeout s.req)).res err
    split at h
    · exact absurd h (by simp)
    · split at h
      · exact absurd h (by simp)
      · injection h with h
        subst h
        dsimp only
        refine ⟨rfl, ?_, ?_, ?_⟩
        · simp only [transportCalls_append, w1, r1]
          cases t.loggingEnabled <;> simp [transportCalls, Event.asRoundTrip]
        · simp only [evaluatorCalls_append, w2, r2]
          cases t.loggingEnabled <;> simp [evaluatorCalls, Event.isEvaluate]
        · simp only [backoffCalls_append, w3, r3]
          cases t.loggingEnabled <;> simp [backoffCalls, Event.isNextBackOff]

theorem iteration_done {t : transport} {env : Env} {origCtx : Context} {body : Option Bytes}
    {resetTimeout : Bool} {s : LoopState} {out : Outcome}
    (h : iteration t env origCtx body resetTimeout s = Step.done out) :
    transportCalls out.trace
      = transportCalls s.trace ++ [attemptRequest t origCtx body resetTimeout s.req] := by
  unfold iteration at h
  obtain ⟨w1, -, -⟩ := withTimeout_calls resetTimeout t.requestTimeout s.trace
  dsimp only at h
  split at h
  · injection h with h
    subst h
    simp only [transportCalls_append, w1]
    simp [transportCalls, Event.asRoundTrip]
  · injection h with h
    subst h
    simp only [transportCalls_append, w1]
    simp [transportCalls, Event.asRoundTrip]
  · rename_i err hev
    obtain ⟨r1, -, -⟩ := releaseResponse_calls t env
      (afterRoundTrip (t.transport s.retryCount
        (attemptRequest t origCtx body resetTimeout s.req)).consumed
        (attemptRequest t origCtx body resetTimeout s.req))
      (t.transport s.retryCount (attemptRequest t origCtx body resetTimeout s.req)).res err
    split at h
    · injection h with h
      subst h
      simp only [transportCalls_append, w1, r1]
      simp [transportCalls, Event.asRoundTrip]
    · split at h
      · injection h with h
        subst h
        simp only [transportCalls_append, w1, r1]
        simp [transportCalls, Event.asRoundTrip]
      · exact absurd h (by simp)

theorem stateAt_succ {t : transport} {env : Env} {origCtx : Context} {body : Option Bytes}
    {resetTimeout : Bool} {s0 s : LoopState} {n : Nat}
    (h : stateAt t env origCtx body resetTimeout s0 (n + 1) = some s) :
    ∃ s', stateAt t env origCtx body resetTimeout s0 n = some s' ∧
      iteration t env origCtx body resetTimeout s' = Step.next s := by
  simp only [stateAt] at h
  split at h
  · rename_i s' hs'
    split at h
    · rename_i s'' hit
      injection h with h
      subst h
      exact ⟨s', hs', hit⟩
    · exact absurd h (by simp)
  · exact absurd h (by simp)

theorem stateAt_counts {t : transport} {env : Env} {origCtx : Context} {body : Option Bytes}
    {resetTimeout : Bool} {s0 : LoopState} (n : Nat) :
    ∀ s, stateAt t env origCtx body resetTimeout s0 n = some s →
      s.retryCount = s0.retryCount + n ∧
      (transportCalls s.trace).length = (transportCalls s0.trace).length + n ∧
      evaluatorCalls s.trace = evaluatorCalls s0.trace + n ∧
      backoffCalls s.trace = backoffCalls s0.trace + n := by
  induction n with
  | zero =>
    intro s h
    simp only [stateAt, Option.some.injEq] at h
    subst h
    exact ⟨rfl, rfl, rfl, rfl⟩
  | succ n ih =>
    intro s h
    obtain ⟨s', hs', hit⟩ := stateAt_succ h
    obtain ⟨i1, i2, i3, i4⟩ := ih s' hs'
    obtain ⟨j1, j2, j3, j4⟩ := iteration_next hit
    refine ⟨by omega, ?_, by omega, by omega⟩
    rw [j2, List.length_append, i2]
    rfl

theorem retryLoop_stateAt {t : transport} {env : Env} {origCtx : Context}
    {body : Option Bytes} {resetTimeout : Bool} {s0 : LoopState} (n : Nat) :
    ∀ s, stateAt t env origCtx body resetTimeout s0 n = some s →
      ∀ fuel, retryLoop t env origCtx body resetTimeout (n + fuel) s0
        = retryLoop t env origCtx body resetTimeout fuel s := by
  induction n with
  | zero =>
    intro s h fuel
    simp only [stateAt, Option.some.injEq] at h
    subst h
    rw [Nat.zero_add]
  | succ n ih =>
    intro s h fuel
    obtain ⟨s', hs', hit⟩ := stateAt_succ h
    have := ih s' hs' (fuel + 1)
    rw [show n + 1 + fuel = n + (fuel + 1) by omega, this]
    simp only [retryLoop, hit]

theorem retryLoop_done {t : transport} {env : Env} {origCtx : Context}
    {body : Option Bytes} {resetTimeout : Bool} {s0 s : LoopState} {n fuel : Nat} {out : Outcome}
    (hs : stateAt t env origCtx body resetTimeout s0 n = some s)
    (hit : iteration t env origCtx body resetTimeout s = Step.done out) (hf : n < fuel) :
    retryLoop t env origCtx body resetTimeout fuel s0 = some out := by
  obtain ⟨f, rfl⟩ : ∃ f, fuel = n + (f + 1) := ⟨fuel - n - 1, by omega⟩
  rw [retryLoop_stateAt n s hs (f + 1)]
  simp only [retryLoop, hit]

end gentlemanretry

namespace gentlemanretry

theorem retryLoop_some {t : transport} {env : Env} {origCtx : Context}
    {body : Option Bytes} {resetTimeout : Bool} {s0 : LoopState} {out : Outcome} (fuel : Nat) :
    ∀ (m : Nat) (s : LoopState), stateAt t env origCtx body resetTimeout s0 m = some s →
      retryLoop t env origCtx body resetTimeout fuel s = some out →
      ∃ n s', stateAt t env origCtx body resetTimeout s0 n = some s' ∧
        iteration t env origCtx body resetTimeout s' = Step.done out := by
  induction fuel with
  | zero =>
    intro m s _ h
    simp [retryLoop] at h
  | succ fuel ih =>
    intro m s hs h
    simp only [retryLoop] at h
    split at h
    · rename_i o hit
      injection h with h
      subst h
      exact ⟨m, s, hs, hit⟩
    · rename_i s'' hit
      exact ih (m + 1) s'' (by simp only [stateAt, hs, hit]) h

theorem attemptRequest_body (t : transport) (origCtx : Context) (B : Bytes)
    (resetTimeout : Bool) (req : Request) :
    (attemptRequest t origCtx (some B) resetTimeout req).Body = some (NopCloser B) := by
  unfold attemptRequest
  rfl

theorem stateAt_bodies {t : transport} {env : Env} {origCtx : Context} {B : Bytes}
    {resetTimeout : Bool} {s0 : LoopState}
    (h0 : ∀ r ∈ transportCalls s0.trace, r.Body = some (NopCloser B)) (n : Nat) :
    ∀ s, stateAt t env origCtx (some B) resetTimeout s0 n = some s →
      ∀ r ∈ transportCalls s.trace, r.Body = some (NopCloser B) := by
  induction n with
  | zero =>
    intro s h
    simp only [stateAt, Option.some.injEq] at h
    subst h
    exact h0
  | succ n ih =>
    intro s h r hr
    obtain ⟨s', hs', hit⟩ := stateAt_succ h
    obtain ⟨-, j2, -, -⟩ := iteration_next hit
    rw [j2, List.mem_append, List.mem_singleton] at hr
    rcases hr with hr | hr
    · exact ih s' hs' r hr
    · rw [hr]
      exact attemptRequest_body t origCtx B resetTimeout s'.req

end gentlemanretry

/-! ## The evaluator -/

/-- C1. `defaultEvaluator` returns `(true, err)` for a non-nil `err`, whatever the response;
for a nil `err` and a response of status `>= 500` or `408` it returns true with an error of
message `server response error`; for a nil `err` and any other status it returns
`(false, nil)`. -/
theorem defaultEvaluator_decision (req : gentlemanretry.Request) :
    (∀ (e : gentlemanretry.Error) (res : Option gentlemanretry.Response),
      gentlemanretry.defaultEvaluator (some e) req res = some (true, some e)) ∧
    (∀ r : gentlemanretry.Response, 500 ≤ r.StatusCode ∨ r.StatusCode = 408 →
      gentlemanretry.defaultEvaluator none req (some r)
        = some (true, some { message := "server response error", fields := [] })) ∧
    (∀ r : gentlemanretry.Response, ¬ (500 ≤ r.StatusCode ∨ r.StatusCode = 408) →
      gentlemanretry.defaultEvaluator none req (some r) = some (false, none)) := by
  refine ⟨fun e res => rfl, fun r h => ?_, fun r h => ?_⟩
  · simp only [gentlemanretry.defaultEvaluator, gentlemanretry.StatusRequestTimeout]
    rw [if_pos h]
    rfl
  · simp only [gentlemanretry.defaultEvaluator, gentlemanretry.StatusRequestTimeout]
    rw [if_neg h]

/-- C1, at the scenario of the specification: status 503 gives true with
`server response error`, status 200 gives `(false, nil)`. -/
theorem defaultEvaluator_decision_witness :
    gentlemanretry.defaultEvaluator none gentlemanretry.exampleRequest
        (some { StatusCode := 503, Body := gentlemanretry.NopCloser [] })
      = some (true, some { message := "server response error", fields := [] }) ∧
    gentlemanretry.defaultEvaluator none gentlemanretry.exampleRequest
        (some { StatusCode := 200, Body := gentlemanretry.NopCloser [] })
      = some (false, none) :=
  ⟨(defaultEvaluator_decision gentlemanretry.exampleRequest).2.1
      { StatusCode := 503, Body := gentlemanretry.NopCloser [] } (Or.inl (by decide)),
   (defaultEvaluator_decision gentlemanretry.exampleRequest).2.2
      { StatusCode := 200, Body := gentlemanretry.NopCloser [] } (by decide)⟩

/-! ## The round tripper -/

/-- C8. When the request has a body whose full read fails with error `e`, `RoundTrip`
returns (for any fuel: the loop is not entered) with exactly `e` as its error; the only
actions are the read and the close of the original body, so the underlying transport, the
evaluator and the backoff generator are never called. -/
theorem roundTrip_body_read_failure (t : gentlemanretry.transport) (env : gentlemanretry.Env)
    (req : gentlemanretry.Request) (rc : gentlemanretry.ReadCloser) (e : gentlemanretry.Error)
    (fuel : Nat) (hb : req.Body = some rc) (hf : rc.failure = some e) :
    ∃ out, gentlemanretry.RoundTrip t env req fuel = some out ∧
      out.result = some (t.gctxResponse, some e) ∧
      out.trace = [gentlemanretry.Event.readAll, gentlemanretry.Event.closeRequestBody] ∧
      gentlemanretry.transportCalls out.trace = [] ∧
      gentlemanretry.evaluatorCalls out.trace = 0 ∧
      gentlemanretry.backoffCalls out.trace = 0 ∧
      gentlemanretry.Event.newBackOff ∉ out.trace := by
  refine ⟨{ result := some (t.gctxResponse, some e),
            trace := [gentlemanretry.Event.readAll, gentlemanretry.Event.closeRequestBody] },
    ?_, rfl, rfl, rfl, rfl, rfl, by simp⟩
  simp only [gentlemanretry.RoundTrip, hb, gentlemanretry.ReadAll, hf]

/-- C8, at a request whose body fails with `unexpected EOF` after one byte: `RoundTrip`
returns that error without any fuel. -/
theorem roundTrip_body_read_failure_witness :
    ∃ out, gentlemanretry.RoundTrip gentlemanretry.failingTransport (gentlemanretry.exampleEnv 0)
        gentlemanretry.brokenRequest 0 = some out ∧
      out.result = some (none, some (gentlemanretry.errorsNew "unexpected EOF")) ∧
      out.trace = [gentlemanretry.Event.readAll, gentlemanretry.Event.closeRequestBody] ∧
      gentlemanretry.transportCalls out.trace = [] ∧
      gentlemanretry.evaluatorCalls out.trace = 0 ∧
      gentlemanretry.backoffCalls out.trace = 0 ∧
      gentlemanretry.Event.newBackOff ∉ out.trace :=
  roundTrip_body_read_failure gentlemanretry.failingTransport (gentlemanretry.exampleEnv 0)
    gentlemanretry.brokenRequest
    { content := [1], failure := some (gentlemanretry.errorsNew "unexpected EOF") }
    (gentlemanretry.errorsNew "unexpected EOF") 0 rfl rfl

/-- C9. When the loop reaches its `n + 1`-th attempt (state `s` at the start of iteration
`n`) and the evaluator answers that attempt with "no retry" and error `err`, `retry` returns
(given more than `n` units of fuel) exactly the response the transport produced for that
attempt together with `err`; the transport has been called `n + 1` times, the backoff
generator `n` times (once after each earlier attempt), and the last actions are the transport
call and the evaluation: nothing is cancelled, drained, dumped, closed or waited for after
them.  With the default evaluator, a first attempt answered without error by a status below
500 other than 408 yields that response and a nil error after a single transport call. -/
theorem retry_returns_final_attempt (t : gentlemanretry.transport) (env : gentlemanretry.Env)
    (req : gentlemanretry.Request) (body : Option gentlemanretry.Bytes) (resetTimeout : Bool) :
    (∀ (n : Nat) (s : gentlemanretry.LoopState) (err : Option gentlemanretry.Error) (fuel : Nat),
      gentlemanretry.stateAt t env req.ctx body resetTimeout
        (gentlemanretry.initialState t env req) n = some s →
      t.evaluator
        (t.transport n (gentlemanretry.attemptRequest t req.ctx body resetTimeout s.req)).err
        (gentlemanretry.afterRoundTrip
          (t.transport n (gentlemanretry.attemptRequest t req.ctx body resetTimeout s.req)).consumed
          (gentlemanretry.attemptRequest t req.ctx body resetTimeout s.req))
        (t.transport n (gentlemanretry.attemptRequest t req.ctx body resetTimeout s.req)).res
        = some (false, err) →
      n < fuel →
      ∃ out, gentlemanretry.retry t env req body resetTimeout fuel = some out ∧
        out.result = some
          ((t.transport n (gentlemanretry.attemptRequest t req.ctx body resetTimeout s.req)).res,
            err) ∧
        (gentlemanretry.transportCalls out.trace).length = n + 1 ∧
        gentlemanretry.backoffCalls out.trace = n ∧
        out.trace =
          (if resetTimeout then s.trace ++ [gentlemanretry.Event.withTimeout t.requestTimeout]
            else s.trace) ++
          [gentlemanretry.Event.roundTrip
              (gentlemanretry.attemptRequest t req.ctx body resetTimeout s.req),
            gentlemanretry.Event.evaluate
              (t.transport n
                (gentlemanretry.attemptRequest t req.ctx body resetTimeout s.req)).err
              (t.transport n
                (gentlemanretry.attemptRequest t req.ctx body resetTimeout s.req)).res]) ∧
    (∀ (r : gentlemanretry.Response) (fuel : Nat),
      t.evaluator = gentlemanretry.defaultEvaluator →
      (t.transport 0 (gentlemanretry.attemptRequest t req.ctx body resetTimeout req)).res
        = some r →
      (t.transport 0 (gentlemanretry.attemptRequest t req.ctx body resetTimeout req)).err
        = none →
      r.StatusCode < 500 → r.StatusCode ≠ 408 → 0 < fuel →
      ∃ out, gentlemanretry.retry t env req body resetTimeout fuel = some out ∧
        out.result = some (some r, none) ∧
        (gentlemanretry.transportCalls out.trace).length = 1 ∧
        gentlemanretry.backoffCalls out.trace = 0) := by
  have main : ∀ (n : Nat) (s : gentlemanretry.LoopState) (err : Option gentlemanretry.Error)
      (fuel : Nat),
      gentlemanretry.stateAt t env req.ctx body resetTimeout
        (gentlemanretry.initialState t env req) n = some s →
      t.evaluator
        (t.transport n (gentlemanretry.attemptRequest t req.ctx body resetTimeout s.req)).err
        (gentlemanretry.afterRoundTrip
          (t.transport n (gentlemanretry.attemptRequest t req.ctx body resetTimeout s.req)).consumed
          (gentlemanretry.attemptRequest t req.ctx body resetTimeout s.req))
        (t.transport n (gentlemanretry.attemptRequest t req.ctx body resetTimeout s.req)).res
        = some (false, err) →
      n < fuel →
      ∃ out, gentlemanretry.retry t env req body resetTimeout fuel = some out ∧
        out.result = some
          ((t.transport n (gentlemanretry.attemptRequest t req.ctx body resetTimeout s.req)).res,
            err) ∧
        (gentlemanretry.transportCalls out.trace).length = n + 1 ∧
        gentlemanretry.backoffCalls out.trace = n ∧
        out.trace =
          (if resetTimeout then s.trace ++ [gentlemanretry.Event.withTimeout t.requestTimeout]
            else s.trace) ++
          [gentlemanretry.Event.roundTrip
              (gentlemanretry.attemptRequest t req.ctx body resetTimeout s.req),
            gentlemanretry.Event.evaluate
              (t.transport n
                (gentlemanretry.attemptRequest t req.ctx body resetTimeout s.req)).err
              (t.transport n
                (gentlemanretry.attemptRequest t req.ctx body resetTimeout s.req)).res] := by
    intro n s err fuel hs hev hf
    obtain ⟨c1, c2, -, c4⟩ := gentlemanretry.stateAt_counts n s hs
    have hk : s.retryCount = n := by
      rw [c1]; simp [gentlemanretry.initialState]
    have hit : gentlemanretry.iteration t env req.ctx body resetTimeout s
        = gentlemanretry.Step.done
          { result := some
              ((t.transport n
                (gentlemanretry.attemptRequest t req.ctx body resetTimeout s.req)).res, err)
            trace :=
              (if resetTimeout then
                s.trace ++ [gentlemanretry.Event.withTimeout t.requestTimeout]
               else s.trace) ++
              [gentlemanretry.Event.roundTrip
                  (gentlemanretry.attemptRequest t req.ctx body resetTimeout s.req),
                gentlemanretry.Event.evaluate
                  (t.transport n
                    (gentlemanretry.attemptRequest t req.ctx body resetTimeout s.req)).err
                  (t.transport n
                    (gentlemanretry.attemptRequest t req.ctx body resetTimeout s.req)).res] } := by
      unfold gentlemanretry.iteration
      simp only [hk, hev]
    refine ⟨_, gentlemanretry.retryLoop_done hs hit hf, rfl, ?_, ?_, rfl⟩
    · rw [gentlemanretry.iteration_done hit, List.length_append, c2]
      simp [gentlemanretry.initialState, gentlemanretry.transportCalls,
        gentlemanretry.Event.asRoundTrip]
    · obtain ⟨-, -, w3⟩ := gentlemanretry.withTimeout_calls resetTimeout t.requestTimeout s.trace
      show gentlemanretry.backoffCalls (_ ++ _) = n
      rw [gentlemanretry.backoffCalls_append, w3, c4]
      simp [gentlemanretry.initialState, gentlemanretry.backoffCalls,
        gentlemanretry.Event.isNextBackOff]
  refine ⟨main, ?_⟩
  intro r fuel hdef hres herr h500 h408 hf
  have hev : t.evaluator
      (t.transport 0 (gentlemanretry.attemptRequest t req.ctx body resetTimeout
        (gentlemanretry.initialState t env req).req)).err
      (gentlemanretry.afterRoundTrip
        (t.transport 0 (gentlemanretry.attemptRequest t req.ctx body resetTimeout
          (gentlemanretry.initialState t env req).req)).consumed
        (gentlemanretry.attemptRequest t req.ctx body resetTimeout
          (gentlemanretry.initialState t env req).req))
      (t.transport 0 (gentlemanretry.attemptRequest t req.ctx body resetTimeout
        (gentlemanretry.initialState t env req).req)).res = some (false, none) := by
    show t.evaluator
      (t.transport 0 (gentlemanretry.attemptRequest t req.ctx body resetTimeout req)).err _
      (t.transport 0 (gentlemanretry.attemptRequest t req.ctx body resetTimeout req)).res = _
    rw [hdef, hres, herr]
    simp only [gentlemanretry.defaultEvaluator, gentlemanretry.StatusRequestTimeout]
    rw [if_neg]
    rintro (h | h)
    · omega
    · exact h408 h
  obtain ⟨out, h1, h2, h3, h4, -⟩ :=
    main 0 (gentlemanretry.initialState t env req) none fuel rfl hev hf
  refine ⟨out, h1, ?_, h3, h4⟩
  rw [h2]
  show some ((t.transport 0
    (gentlemanretry.attemptRequest t req.ctx body resetTimeout req)).res, none) = _
  rw [hres]

namespace gentlemanretry

theorem releaseResponse_error (t : transport) (env : Env) (req : Request)
    (res : Option Response) (err : Option Error) :
    ((res = none ∨ (t.logRequest = false ∧ t.logResponse = false)) →
      (releaseResponse t env req res err).1 = err) ∧
    (∀ rs, res = some rs → (t.logRequest = true ∨ t.logResponse = true) →
      (releaseResponse t env req res err).1 = env.WithFields err
        ((if t.logRequest then ["request", env.DumpRequest req] else []) ++
         (if t.logResponse then ["response", env.DumpResponse rs] else []))) := by
  unfold releaseResponse
  constructor
  · rintro (h | ⟨h1, h2⟩)
    · rw [h]
    · cases res with
      | none => rfl
      | some rs => simp [h1, h2]
  · intro rs hrs hlog
    rw [hrs]
    cases h1 : t.logRequest <;> cases h2 : t.logResponse <;> simp [h1, h2] at hlog ⊢

theorem iteration_gives_up {t : transport} {env : Env} {origCtx : Context}
    {body : Option Bytes} {resetTimeout : Bool} {s : LoopState} {err : Option Error}
    (hev : t.evaluator
      (t.transport s.retryCount (attemptRequest t origCtx body resetTimeout s.req)).err
      (afterRoundTrip
        (t.transport s.retryCount (attemptRequest t origCtx body resetTimeout s.req)).consumed
        (attemptRequest t origCtx body resetTimeout s.req))
      (t.transport s.retryCount (attemptRequest t origCtx body resetTimeout s.req)).res
      = some (true, err))
    (hstop : (backoff.NextBackOff s.bOff (env.now s.retryCount) (env.draw s.retryCount)).2.1
        = false ∨
      env.doneFirst s.retryCount
        (backoff.NextBackOff s.bOff (env.now s.retryCount) (env.draw s.retryCount)).2.2
        = true) :
    ∃ tr, iteration t env origCtx body resetTimeout s = Step.done
      { result := some (none, (releaseResponse t env
          (afterRoundTrip
            (t.transport s.retryCount
              (attemptRequest t origCtx body resetTimeout s.req)).consumed
            (attemptRequest t origCtx body resetTimeout s.req))
          (t.transport s.retryCount (attemptRequest t origCtx body resetTimeout s.req)).res
          err).1)
        trace := tr } := by
  unfold iteration
  simp only [hev]
  by_cases hn : (backoff.NextBackOff s.bOff (env.now s.retryCount)
      (env.draw s.retryCount)).2.1 = false
  · simp only [hn, Bool.not_false, if_true]
    exact ⟨_, rfl⟩
  · have hd := hstop.resolve_left hn
    simp only [Bool.not_eq_false] at hn
    simp only [hn, Bool.not_true, hd, if_true]
    exact ⟨_, rfl⟩

end gentlemanretry

/-- C7. When the loop reaches its `n + 1`-th attempt (state `s` at the start of iteration
`n`), the evaluator answers it with "retry" and error `err`, and then either `NextBackOff`
reports expiration or `done` is received before the wait elapses, `retry` returns (given more
than `n` units of fuel) a nil response together with `err`: unchanged when no response was
received or dumping is off, and passed through `errors.WithFields` with the dump fields when
a response was received and dumping is on.  The transport is called `n + 1` times in all: no
call follows that attempt. -/
theorem retry_gives_up (t : gentlemanretry.transport) (env : gentlemanretry.Env)
    (req : gentlemanretry.Request) (body : Option gentlemanretry.Bytes) (resetTimeout : Bool)
    (n : Nat) (s : gentlemanretry.LoopState) (err : Option gentlemanretry.Error) (fuel : Nat)
    (hs : gentlemanretry.stateAt t env req.ctx body resetTimeout
      (gentlemanretry.initialState t env req) n = some s)
    (hev : t.evaluator
      (t.transport n (gentlemanretry.attemptRequest t req.ctx body resetTimeout s.req)).err
      (gentlemanretry.afterRoundTrip
        (t.transport n (gentlemanretry.attemptRequest t req.ctx body resetTimeout s.req)).consumed
        (gentlemanretry.attemptRequest t req.ctx body resetTimeout s.req))
      (t.transport n (gentlemanretry.attemptRequest t req.ctx body resetTimeout s.req)).res
      = some (true, err))
    (hstop : (backoff.NextBackOff s.bOff (env.now n) (env.draw n)).2.1 = false ∨
      env.doneFirst n (backoff.NextBackOff s.bOff (env.now n) (env.draw n)).2.2 = true)
    (hf : n < fuel) :
    ∃ out e, gentlemanretry.retry t env req body resetTimeout fuel = some out ∧
      out.result = some (none, e) ∧
      (((t.transport n (gentlemanretry.attemptRequest t req.ctx body resetTimeout s.req)).res
          = none ∨ (t.logRequest = false ∧ t.logResponse = false)) → e = err) ∧
      (∀ rs,
        (t.transport n (gentlemanretry.attemptRequest t req.ctx body resetTimeout s.req)).res
          = some rs →
        (t.logRequest = true ∨ t.logResponse = true) →
        e = env.WithFields err
          ((if t.logRequest then
              ["request", env.DumpRequest (gentlemanretry.afterRoundTrip
                (t.transport n
                  (gentlemanretry.attemptRequest t req.ctx body resetTimeout s.req)).consumed
                (gentlemanretry.attemptRequest t req.ctx body resetTimeout s.req))]
            else []) ++
           (if t.logResponse then ["response", env.DumpResponse rs] else []))) ∧
      (gentlemanretry.transportCalls out.trace).length = n + 1 := by
  obtain ⟨c1, c2, -, -⟩ := gentlemanretry.stateAt_counts n s hs
  have hk : s.retryCount = n := by
    rw [c1]; simp [gentlemanretry.initialState]
  rw [← hk] at hev hstop
  obtain ⟨tr, hit⟩ := gentlemanretry.iteration_gives_up hev hstop
  obtain ⟨r1, r2⟩ := gentlemanretry.releaseResponse_error t env
    (gentlemanretry.afterRoundTrip
      (t.transport s.retryCount
        (gentlemanretry.attemptRequest t req.ctx body resetTimeout s.req)).consumed
      (gentlemanretry.attemptRequest t req.ctx body resetTimeout s.req))
    (t.transport s.retryCount
      (gentlemanretry.attemptRequest t req.ctx body resetTimeout s.req)).res err
  rw [hk] at r1 r2 hit
  refine ⟨_, _, gentlemanretry.retryLoop_done hs hit hf, rfl, r1, r2, ?_⟩
  rw [gentlemanretry.iteration_done hit, List.length_append, c2]
  simp [gentlemanretry.initialState, gentlemanretry.transportCalls,
    gentlemanretry.Event.asRoundTrip]

/-- C7, at the scenario of the specification: `done` is received during the wait after the
first attempt, which failed with `connection refused`; `retry` returns a nil response with
that error and the transport has been called once. -/
theorem retry_gives_up_witness :
    ∃ out e, gentlemanretry.retry gentlemanretry.failingTransport (gentlemanretry.exampleEnv 0)
        gentlemanretry.exampleRequest (some [1, 2, 3]) false 5 = some out ∧
      out.result = some (none, e) ∧
      e = some (gentlemanretry.errorsNew "connection refused") ∧
      (gentlemanretry.transportCalls out.trace).length = 1 := by
  obtain ⟨out, e, h1, h2, h3, -, h5⟩ :=
    retry_gives_up gentlemanretry.failingTransport (gentlemanretry.exampleEnv 0)
      gentlemanretry.exampleRequest (some [1, 2, 3]) false 0
      (gentlemanretry.initialState gentlemanretry.failingTransport (gentlemanretry.exampleEnv 0)
        gentlemanretry.exampleRequest)
      (some (gentlemanretry.errorsNew "connection refused")) 5 rfl rfl (Or.inr rfl)
      (by decide)
  exact ⟨out, e, h1, h2, h3 (Or.inl rfl), h5⟩

/-- C6. When the request body reads successfully as the bytes `B`, every request `RoundTrip`
hands to the underlying transport carries a body reader positioned at the start of `B`: in
every state the loop reaches, and in the outcome of every run that returns. -/
theorem roundTrip_replays_body (t : gentlemanretry.transport) (env : gentlemanretry.Env)
    (req : gentlemanretry.Request) (rc : gentlemanretry.ReadCloser)
    (hb : req.Body = some rc) (hok : rc.failure = none) :
    (∀ (n : Nat) (s : gentlemanretry.LoopState),
      gentlemanretry.stateAt t env req.ctx (some rc.content)
        (gentlemanretry.resetTimeoutOf t req) (gentlemanretry.initialState t env req) n
        = some s →
      ∀ r ∈ gentlemanretry.transportCalls s.trace,
        r.Body = some (gentlemanretry.NopCloser rc.content) ∧
        gentlemanretry.ReadAll (gentlemanretry.NopCloser rc.content) = (rc.content, none)) ∧
    (∀ (fuel : Nat) (out : gentlemanretry.Outcome),
      gentlemanretry.RoundTrip t env req fuel = some out →
      ∀ r ∈ gentlemanretry.transportCalls out.trace,
        r.Body = some (gentlemanretry.NopCloser rc.content) ∧
        gentlemanretry.ReadAll (gentlemanretry.NopCloser rc.content) = (rc.content, none)) := by
  have h0 : ∀ r ∈ gentlemanretry.transportCalls (gentlemanretry.initialState t env req).trace,
      r.Body = some (gentlemanretry.NopCloser rc.content) := by
    intro r hr
    simp [gentlemanretry.initialState, gentlemanretry.transportCalls,
      gentlemanretry.Event.asRoundTrip] at hr
  constructor
  · intro n s hs r hr
    exact ⟨gentlemanretry.stateAt_bodies h0 n s hs r hr, rfl⟩
  · intro fuel out hrun r hr
    refine ⟨?_, rfl⟩
    simp only [gentlemanretry.RoundTrip, hb, gentlemanretry.ReadAll, hok, Option.map_eq_some']
      at hrun
    obtain ⟨out', hret, rfl⟩ := hrun
    obtain ⟨n, s, hs, hit⟩ := gentlemanretry.retryLoop_some fuel 0 _ rfl hret
    have hcalls : gentlemanretry.transportCalls
        (gentlemanretry.Outcome.after
          [gentlemanretry.Event.readAll, gentlemanretry.Event.closeRequestBody] out').trace
        = gentlemanretry.transportCalls out'.trace := by
      simp [gentlemanretry.Outcome.after, gentlemanretry.transportCalls,
        gentlemanretry.Event.asRoundTrip]
    rw [hcalls, gentlemanretry.iteration_done hit, List.mem_append, List.mem_singleton] at hr
    rcases hr with hr | hr
    · exact gentlemanretry.stateAt_bodies h0 n s hs r hr
    · rw [hr]
      exact gentlemanretry.attemptRequest_body t req.ctx rc.content _ s.req

/-- C6, at the scenario of the specification: the body `1, 2, 3` is sent through a transport
that always fails retryably after reading two bytes; cancellation arrives during the fourth
wait.  The run returns after four transport calls (the first attempt and three retries), and
each call received a body reader at the start of `1, 2, 3`. -/
theorem roundTrip_replays_body_witness :
    ∃ out, gentlemanretry.RoundTrip gentlemanretry.failingTransport (gentlemanretry.exampleEnv 3)
        gentlemanretry.exampleRequest 10 = some out ∧
      (gentlemanretry.transportCalls out.trace).length = 4 ∧
      ∀ r ∈ gentlemanretry.transportCalls out.trace,
        r.Body = some (gentlemanretry.NopCloser [1, 2, 3]) ∧
        gentlemanretry.ReadAll (gentlemanretry.NopCloser [1, 2, 3]) = ([1, 2, 3], none) := by
  have hrun : ∃ out, gentlemanretry.RoundTrip gentlemanretry.failingTransport
      (gentlemanretry.exampleEnv 3) gentlemanretry.exampleRequest 10 = some out ∧
      (gentlemanretry.transportCalls out.trace).length = 4 := by
    simp [gentlemanretry.RoundTrip, gentlemanretry.exampleRequest, gentlemanretry.ReadAll,
      gentlemanretry.retry, gentlemanretry.retryLoop, gentlemanretry.iteration,
      gentlemanretry.initialState, gentlemanretry.failingTransport, gentlemanretry.exampleEnv,
      gentlemanretry.resetTimeoutOf, gentlemanretry.defaultEvaluator,
      backoff.NextBackOff_hasNext, gentlemanretry.releaseResponse,
      gentlemanretry.Context.Deadline, gentlemanretry.attemptRequest,
      gentlemanretry.afterRoundTrip, backoff.NextBackOff_frame, backoff.NewExponentialBackOff,
      backoff.DefaultMaxElapsedTime, Minute, Second, Millisecond, gentlemanretry.Outcome.after,
      gentlemanretry.transportCalls, gentlemanretry.Event.asRoundTrip]
  obtain ⟨out, h, hl⟩ := hrun
  exact ⟨out, h, hl,
    (roundTrip_replays_body gentlemanretry.failingTransport (gentlemanretry.exampleEnv 3)
      gentlemanretry.exampleRequest { content := [1, 2, 3], failure := none } rfl rfl).2
      10 out h⟩

/-- C9, at a transport that answers the first call with status 200: `retry` returns that
response with a nil error after one transport call and no backoff call. -/
theorem retry_returns_final_attempt_witness :
    ∃ out, gentlemanretry.retry (gentlemanretry.answeringTransport 200)
        (gentlemanretry.exampleEnv 0) gentlemanretry.exampleRequest (some [1, 2, 3]) false 1
        = some out ∧
      out.result = some (some { StatusCode := 200, Body := gentlemanretry.NopCloser [] }, none) ∧
      (gentlemanretry.transportCalls out.trace).length = 1 ∧
      gentlemanretry.backoffCalls out.trace = 0 := by
  obtain ⟨out, h1, h2, h3, h4, -⟩ :=
    (retry_returns_final_attempt (gentlemanretry.answeringTransport 200)
      (gentlemanretry.exampleEnv 0) gentlemanretry.exampleRequest (some [1, 2, 3]) false).1 0
      (gentlemanretry.initialState (gentlemanretry.answeringTransport 200)
        (gentlemanretry.exampleEnv 0) gentlemanretry.exampleRequest)
      none 1 rfl rfl (by decide)
  exact ⟨out, h1, h2, h3, h4⟩


end Retry
